import Mathlib

/-!
Verification of the copilot-api gateway (Rust) against its natural-language
specification.  Shallow embedding: the relevant Rust functions are translated
into executable Lean definitions; machine integers are modelled as `Nat`
(the quantities involved never overflow `u64` in the modelled ranges) and
time instants as rationals counting seconds.
-/

namespace CopilotApi

/-- Models `str::starts_with` structurally (Lean core `String.startsWith`
does not reduce in the kernel). -/
def strStartsWith (s p : String) : Bool := p.toList.isPrefixOf s.toList

/-- List-level trim: drop whitespace from both ends. -/
def trimList (cs : List Char) : List Char :=
  ((cs.dropWhile Char.isWhitespace).reverse.dropWhile Char.isWhitespace).reverse

/-- Models `str::trim` (whitespace on both ends; the source strings involved
use ASCII whitespace only). -/
def strTrim (s : String) : String := .mk (trimList s.toList)

/-- Ceiling of a rational, computed structurally: `⌈q⌉ = -⌊-q⌋` with the
floor written out as integer division of numerator by denominator. -/
def ratCeil (q : ℚ) : ℤ := -((-q).num / (((-q).den : ℤ)))

/-- Error kinds of the gateway, from `src/errors.rs` (`enum ApiError`).
Each variant carries the human-readable message. -/
inductive ApiError
  | BadRequest (msg : String)
  | Unauthorized (msg : String)
  | NotFound (msg : String)
  | Upstream (msg : String)
  | Internal (msg : String)
  deriving DecidableEq, Repr

/-- Untyped JSON values (`serde_json::Value`).  Numbers are modelled as
integers: the payload fields the claims touch carry no fractional numbers.
Objects are association lists in serialization order. -/
inductive Json
  | null
  | bool (b : Bool)
  | num (n : Int)
  | str (s : String)
  | arr (elems : List Json)
  | obj (fields : List (String × Json))
  deriving Repr

/-- Models `Value::as_str`. -/
def Json.asStr : Json → Option String
  | .str s => some s
  | _ => none

/-- Models `Value::is_array`. -/
def Json.isArr : Json → Bool
  | .arr _ => true
  | _ => false

/-- Models `Value::as_array` (the element list). -/
def Json.asArr : Json → Option (List Json)
  | .arr es => some es
  | _ => none

/-- Models `serde_json::Value::get` with a string key: field lookup on
objects, `none` on every other shape. -/
def jsonGet (j : Json) (key : String) : Option Json :=
  match j with
  | .obj fields => fields.lookup key
  | _ => none

/-- Joins strings with a separator; models `Vec::join` /
`String::intercalate`. -/
def strJoin (sep : String) : List String → String
  | [] => ""
  | [x] => x
  | x :: y :: rest => x ++ sep ++ strJoin sep (y :: rest)

/-! ## Model alias resolution (routes/messages.rs and routes/chat_completions.rs) -/

namespace Messages

/-- Static alias table of `resolve_model_alias` in `routes/messages.rs`
(lines 1176-1200), in source order. -/
def aliasTable : List (String × String) :=
  [ ("claude-opus-4.5", "gpt-5.2-codex")
  , ("claude-opus-4", "gpt-5.2-codex")
  , ("claude-4-opus", "gpt-5.2-codex")
  , ("claude-3-opus", "gpt-5.2-codex")
  , ("claude-3-opus-20240229", "gpt-5.2-codex")
  , ("claude-sonnet-4", "gpt-5.1-codex")
  , ("claude-4-sonnet", "gpt-5.1-codex")
  , ("claude-3.5-sonnet", "gpt-5.1-codex")
  , ("claude-3-5-sonnet-20241022", "gpt-5.1-codex")
  , ("claude-3-sonnet", "gpt-5.1-codex")
  , ("claude-3-sonnet-20240229", "gpt-5.1-codex")
  , ("claude-haiku-3.5", "gpt-5-mini")
  , ("claude-3.5-haiku", "gpt-5-mini")
  , ("claude-3-haiku", "gpt-5-mini")
  , ("claude-3-haiku-20240307", "gpt-5-mini")
  , ("claude-2.1", "gpt-5.1")
  , ("claude-2.0", "gpt-5.1")
  , ("claude-instant-1.2", "gpt-5-mini")
  , ("o3", "gpt-5.2-codex")
  , ("o3-mini", "gpt-5-mini")
  , ("o1", "gpt-5.1")
  , ("o1-preview", "gpt-5.1")
  , ("o1-mini", "gpt-5-mini") ]

/-- Embeds `resolve_model_alias` from `routes/messages.rs` lines 1175-1219:
three prefix rules, then the linear scan of the alias table, then identity. -/
def resolve_model_alias (model : String) : String :=
  if strStartsWith model "claude-sonnet-4-" then "gpt-5.1-codex"
  else if strStartsWith model "claude-opus-4-" || strStartsWith model "claude-opus-4.5-" then
    "gpt-5.2-codex"
  else if strStartsWith model "claude-haiku-" then "gpt-5-mini"
  else
    match aliasTable.lookup model with
    | some target => target
    | none => model

end Messages

namespace ChatComp

/-- Static alias table of `resolve_model_alias` in `routes/chat_completions.rs`
(lines 32-58); it extends the messages-route table with the two codex entries. -/
def aliasTable : List (String × String) :=
  [ ("claude-opus-4.5", "gpt-5.2-codex")
  , ("claude-opus-4", "gpt-5.2-codex")
  , ("claude-4-opus", "gpt-5.2-codex")
  , ("claude-3-opus", "gpt-5.2-codex")
  , ("claude-3-opus-20240229", "gpt-5.2-codex")
  , ("claude-sonnet-4", "gpt-5.1-codex")
  , ("claude-4-sonnet", "gpt-5.1-codex")
  , ("claude-3.5-sonnet", "gpt-5.1-codex")
  , ("claude-3-5-sonnet-20241022", "gpt-5.1-codex")
  , ("claude-3-sonnet", "gpt-5.1-codex")
  , ("claude-3-sonnet-20240229", "gpt-5.1-codex")
  , ("claude-haiku-3.5", "gpt-5-mini")
  , ("claude-3.5-haiku", "gpt-5-mini")
  , ("claude-3-haiku", "gpt-5-mini")
  , ("claude-3-haiku-20240307", "gpt-5-mini")
  , ("claude-2.1", "gpt-5.1")
  , ("claude-2.0", "gpt-5.1")
  , ("claude-instant-1.2", "gpt-5-mini")
  , ("codex-5.2", "gpt-5.2-codex")
  , ("codex-5.1", "gpt-5.1-codex")
  , ("o3", "gpt-5.2-codex")
  , ("o3-mini", "gpt-5-mini")
  , ("o1", "gpt-5.1")
  , ("o1-preview", "gpt-5.1")
  , ("o1-mini", "gpt-5-mini") ]

/-- Embeds `resolve_model_alias` from `routes/chat_completions.rs` lines 31-77. -/
def resolve_model_alias (model : String) : String :=
  if strStartsWith model "claude-sonnet-4-" then "gpt-5.1-codex"
  else if strStartsWith model "claude-opus-4-" || strStartsWith model "claude-opus-4.5-" then
    "gpt-5.2-codex"
  else if strStartsWith model "claude-haiku-" then "gpt-5-mini"
  else
    match aliasTable.lookup model with
    | some target => target
    | none => model

end ChatComp

/-! ## Token store and GitHub-token lookup (token_store.rs, auth_flow.rs) -/

namespace Auth

/-- Embeds `token_store::read_github_token` (token_store.rs lines 3-14).  The
outcome of the filesystem read (`tokio::fs::read_to_string`, together with
`ensure_paths`) is passed in as `readResult`: `Except.error e` is an I/O error
with message `e`, `Except.ok s` is the file content. -/
def read_github_token (readResult : Except String String) :
    Except ApiError (Option String) :=
  match readResult with
  | .error e => .error (.Internal ("Failed to read token: " ++ e))
  | .ok content =>
    let trimmed := strTrim content
    if trimmed = "" then .ok none else .ok (some trimmed)

/-- The slice of `AppConfig` (state.rs) that `ensure_github_token` reads and
mutates: the cached GitHub token. -/
structure AuthConfig where
  github_token : Option String
  deriving DecidableEq, Repr

/-- Embeds `auth_flow::ensure_github_token` (auth_flow.rs lines 8-22): return
the cached token when present; otherwise consult `read_github_token`,
propagating its error with `?`; a non-empty persisted token is cached and
returned; an empty one yields the unauthorized error.  Returns the token
together with the updated config. -/
def ensure_github_token (cfg : AuthConfig) (readResult : Except String String) :
    Except ApiError (String × AuthConfig) :=
  match cfg.github_token with
  | some t => .ok (t, cfg)
  | none =>
    match read_github_token readResult with
    | .error e => .error e
    | .ok (some t) => .ok (t, { github_token := some t })
    | .ok none =>
      .error (.Unauthorized "GitHub token not found. Run device auth first.")

end Auth

/-! ## Rate limiter (rate_limit.rs) -/

namespace RateLimit

/-- The slice of `AppConfig` read and written by `check_rate_limit`
(rate_limit.rs lines 3-32).  An `Instant` is modelled as a rational number of
seconds; `u64` seconds as `Nat`. -/
structure RateConfig where
  rate_limit_seconds : Option Nat
  rate_limit_wait : Bool
  last_request_timestamp : Option ℚ
  deriving DecidableEq

/-- Embeds `rate_limit::check_rate_limit` (rate_limit.rs lines 3-32) as a pure
state transformer.  `now` is `Instant::now()` at entry; `nowAfterSleep` is the
second `Instant::now()` taken after the wait-mode sleep.  The result carries
the route outcome, the updated config, and the slept duration in seconds
(`none` when no sleep happened).  `elapsed` (`as_secs_f64`) is modelled
exactly in `ℚ`; `wait_secs` is `ceil` of the remainder as in the source. -/
def check_rate_limit (cfg : RateConfig) (now nowAfterSleep : ℚ) :
    Except ApiError Unit × RateConfig × Option Nat :=
  match cfg.rate_limit_seconds with
  | none => (.ok (), cfg, none)
  | some limit =>
    match cfg.last_request_timestamp with
    | some last =>
      let elapsed : ℚ := now - last
      if elapsed < (limit : ℚ) then
        let wait_secs : Nat := (ratCeil ((limit : ℚ) - elapsed)).toNat
        if !cfg.rate_limit_wait then
          (.error (.BadRequest
              ("Rate limit exceeded. Wait " ++ toString wait_secs ++ " seconds.")),
            cfg, none)
        else
          (.ok (), { cfg with last_request_timestamp := some nowAfterSleep },
            some wait_secs)
      else
        (.ok (), { cfg with last_request_timestamp := some now }, none)
    | none => (.ok (), { cfg with last_request_timestamp := some now }, none)

end RateLimit

/-! ## Chat-completions to Responses-API translation (routes/responses.rs) -/

namespace Responses

/-- OpenAI tool-call function payload (`ToolCallFunction`,
services/copilot.rs lines 81-84). -/
structure ToolCallFunction where
  name : String
  arguments : String
  deriving Repr, DecidableEq

/-- OpenAI tool call (`ToolCall`, services/copilot.rs lines 74-78); `ty` is
the `type` field. -/
structure ToolCall where
  id : String
  ty : String
  function : ToolCallFunction
  deriving Repr, DecidableEq

/-- OpenAI chat message (`Message`, services/copilot.rs lines 48-57). -/
structure Message where
  role : String
  content : Json
  name : Option String
  tool_calls : Option (List ToolCall)
  tool_call_id : Option String
  deriving Repr

/-- Responses-API input item (`ResponsesInputItem`, routes/responses.rs lines
13-30); `ty` is the `type` field.  Note the struct has no `arguments` field. -/
structure ResponsesInputItem where
  ty : String
  role : Option String
  content : Option Json
  text : Option String
  id : Option String
  call_id : Option String
  name : Option String
  output : Option String
  deriving Repr

/-- Hexadecimal digit (lowercase), for control-character escapes. -/
def hexDigit (n : Nat) : Char :=
  if n < 10 then Char.ofNat (48 + n) else Char.ofNat (87 + n)

/-- JSON string escaping as serde_json performs it: quote, backslash, the
short control escapes, and `u00XX` for the remaining control characters. -/
def escapeChar (c : Char) : List Char :=
  if c == '"' then ['\\', '"']
  else if c == '\\' then ['\\', '\\']
  else if c == Char.ofNat 8 then ['\\', 'b']
  else if c == Char.ofNat 9 then ['\\', 't']
  else if c == Char.ofNat 10 then ['\\', 'n']
  else if c == Char.ofNat 12 then ['\\', 'f']
  else if c == Char.ofNat 13 then ['\\', 'r']
  else if c.toNat < 32 then
    ['\\', 'u', '0', '0', hexDigit (c.toNat / 16), hexDigit (c.toNat % 16)]
  else [c]

/-- Serializes a JSON string literal with its delimiting quotes. -/
def serializeStr (s : String) : String :=
  .mk ('"' :: ((s.toList.map escapeChar).flatten ++ ['"']))

mutual

/-- Compact JSON serialization; models `serde_json::Value::to_string`
(object fields are serialized in the association-list order the value
carries). -/
def jsonSerialize : Json → String
  | .null => "null"
  | .bool b => cond b "true" "false"
  | .num n => toString n
  | .str s => serializeStr s
  | .arr es => "[" ++ strJoin "," (serializeArr es) ++ "]"
  | .obj fs => "\x7b" ++ strJoin "," (serializeObj fs) ++ "\x7d"

/-- Serializes array elements. -/
def serializeArr : List Json → List String
  | [] => []
  | j :: rest => jsonSerialize j :: serializeArr rest

/-- Serializes object members. -/
def serializeObj : List (String × Json) → List String
  | [] => []
  | (k, v) :: rest => (serializeStr k ++ ":" ++ jsonSerialize v) :: serializeObj rest

end

/-- Embeds `messages_to_responses_input` (routes/responses.rs lines 92-190):
system messages contribute nothing; user messages with string content (or the
newline-joined text parts of array content, when non-empty) become user
message items; assistant string content becomes an assistant message item and
each tool call becomes a `function_call` item whose `output` field carries the
arguments string; tool messages become `function_call_output` items carrying
the content string (or its JSON serialization). -/
def messages_to_responses_input : List Message → List ResponsesInputItem
  | [] => []
  | msg :: rest =>
    (match msg.role with
     | "system" => []
     | "user" =>
       (match msg.content.asStr with
        | some text =>
          [⟨"message", some "user", some (.str text), none, none, none, none, none⟩]
        | none =>
          if msg.content.isArr then
            let text_parts := (msg.content.asArr.getD []).filterMap (fun p =>
              match jsonGet p "type" with
              | some (.str "text") =>
                (jsonGet p "text").bind Json.asStr
              | _ => none)
            if text_parts.isEmpty then []
            else
              [⟨"message", some "user", some (.str (strJoin "\n" text_parts)),
                none, none, none, none, none⟩]
          else [])
     | "assistant" =>
       (match msg.content.asStr with
        | some text =>
          [⟨"message", some "assistant", some (.str text), none, none, none, none, none⟩]
        | none => []) ++
       (match msg.tool_calls with
        | some tcs =>
          tcs.map (fun tc =>
            ⟨"function_call", none, none, none, some tc.id, some tc.id,
              some tc.function.name, some tc.function.arguments⟩)
        | none => [])
     | "tool" =>
       let out := (msg.content.asStr).getD (jsonSerialize msg.content)
       [⟨"function_call_output", none, none, none, none, msg.tool_call_id,
         none, some out⟩]
     | _ => []) ++ messages_to_responses_input rest

/-- Embeds `extract_instructions` (routes/responses.rs lines 192-204): the
string contents of system messages, joined with blank lines; `none` when
there are none. -/
def extract_instructions (msgs : List Message) : Option String :=
  let system := (msgs.filter (fun m => m.role == "system")).filterMap
    (fun m => m.content.asStr)
  if system.isEmpty then none else some (strJoin "\n\n" system)

/-- Serde serialization of a `ResponsesInputItem` as an association list:
every field is emitted (there is no skip attribute on the struct), absent
options as null, in declaration order, with `r#type` spelled `type`. -/
def itemToJson (it : ResponsesInputItem) : List (String × Json) :=
  [ ("type", .str it.ty)
  , ("role", match it.role with | some s => .str s | none => .null)
  , ("content", match it.content with | some j => j | none => .null)
  , ("text", match it.text with | some s => .str s | none => .null)
  , ("id", match it.id with | some s => .str s | none => .null)
  , ("call_id", match it.call_id with | some s => .str s | none => .null)
  , ("name", match it.name with | some s => .str s | none => .null)
  , ("output", match it.output with | some s => .str s | none => .null) ]

end Responses

/-! ## OpenAI-response to Anthropic translation and the count_tokens
heuristic (routes/messages.rs) -/

namespace Messages

/-- Embeds `map_openai_stop_reason` (routes/messages.rs lines 803-810). -/
def map_openai_stop_reason (reason : String) : String :=
  if reason = "length" then "max_tokens"
  else if reason = "tool_calls" then "tool_use"
  else if reason = "content_filter" then "content_filter"
  else "end_turn"

/-- A tool call inside a response message, as reached through the source's
`.get` chains; a missing or non-string field collapses to `none` exactly as
`and_then(as_str)` does. -/
structure RespToolCall where
  id : Option String
  name : Option String
  arguments : Option String
  deriving Repr

/-- One response choice of `translate_to_anthropic`: the message content (a
JSON value; an absent `message` or `content` is `none`), the tool calls, and
the choice's `finish_reason`. -/
structure RespChoice where
  content : Option Json
  tool_calls : Option (List RespToolCall)
  finish_reason : Option String
  deriving Repr

/-- The usage fields read by `translate_to_anthropic` and `extract_usage`:
`prompt_tokens`, `completion_tokens` and
`prompt_tokens_details.cached_tokens`, each `none` when absent or not a
`u64`. -/
structure RespUsage where
  prompt_tokens : Option Nat
  completion_tokens : Option Nat
  cached_tokens : Option Nat
  deriving Repr, DecidableEq

/-- An upstream chat-completion response object as `translate_to_anthropic`
reads it; an absent or non-array `choices` collapses to the empty list. -/
structure OpenAIResponse where
  choices : List RespChoice
  usage : RespUsage
  deriving Repr

/-- An Anthropic content block produced by the translation.  For `tool_use`
the source parses the arguments string into a JSON value for the block's
`input` (defaulting to the empty object); the parse result is not touched by
any claim and the raw arguments string is carried instead. -/
inductive ABlock
  | text (t : String)
  | tool_use (id name argumentsRaw : String)
  deriving Repr, DecidableEq

/-- The text blocks collected from one choice's message content (string
content gives one block; array content gives one block per `text` part). -/
def textBlocksOfContent : Option Json → List ABlock
  | none => []
  | some c =>
    match c.asStr with
    | some t => [.text t]
    | none =>
      match c.asArr with
      | some parts =>
        parts.filterMap (fun p =>
          match jsonGet p "type" with
          | some (.str "text") =>
            ((jsonGet p "text").bind Json.asStr).map ABlock.text
          | _ => none)
      | none => []

/-- The tool-use blocks collected from one choice. -/
def toolBlocksOfChoice (choice : RespChoice) : List ABlock :=
  match choice.tool_calls with
  | some tcs =>
    tcs.map (fun tc =>
      ABlock.tool_use (tc.id.getD "") (tc.name.getD "") (tc.arguments.getD "\x7b\x7d"))
  | none => []

/-- The translated Anthropic response body (the random message id and the
constant fields are omitted; `model` is passed through). -/
structure AnthropicResponse where
  content : List ABlock
  model : String
  stop_reason : String
  input_tokens : Nat
  output_tokens : Nat
  cache_read_input_tokens : Option Nat
  deriving Repr

/-- Embeds `translate_to_anthropic` (routes/messages.rs lines 460-556):
text blocks then tool blocks across all choices, the last reported
finish_reason mapped (default end_turn), and usage with
`input_tokens = prompt − cached` (saturating, i.e. floored at zero),
`output_tokens = completion`, and the cached field forwarded when present. -/
def translate_to_anthropic (openai : OpenAIResponse) (model : String) :
    AnthropicResponse :=
  let acc := openai.choices.foldl
    (fun (acc : List ABlock × List ABlock × Option String) choice =>
      (acc.1 ++ textBlocksOfContent choice.content,
        acc.2.1 ++ toolBlocksOfChoice choice,
        match choice.finish_reason with
        | some r => some r
        | none => acc.2.2))
    ([], [], none)
  let prompt := openai.usage.prompt_tokens.getD 0
  let completion := openai.usage.completion_tokens.getD 0
  let cached := openai.usage.cached_tokens
  let input := match cached with | some c => prompt - c | none => prompt
  { content := acc.1 ++ acc.2.1
  , model := model
  , stop_reason := (acc.2.2.map map_openai_stop_reason).getD "end_turn"
  , input_tokens := input
  , output_tokens := completion
  , cache_read_input_tokens := cached }

/-- Follows the claim's words for the stop reason: the mapping applied to the
last choice's finish_reason, end_turn when absent (to be compared with the
source translation). -/
def lastChoiceStopReason (openai : OpenAIResponse) : String :=
  (((openai.choices.getLast?).bind (fun c => c.finish_reason)).map
    map_openai_stop_reason).getD "end_turn"

/-- The last finish_reason reported across the choices, as the source's fold
retains it. -/
def lastReported (choices : List RespChoice) : Option String :=
  choices.foldl
    (fun acc c => match c.finish_reason with | some r => some r | none => acc)
    none

/-- Significand (scaled by 2^52) of the IEEE-754 double nearest to 1.15:
1.15 * 2^52 = 5179139571476070.4, rounding to the even-free nearest
5179139571476070 (which is below 1.15). -/
def m115 : Nat := 5179139571476070

/-- Significand (scaled by 2^52) of the IEEE-754 double nearest to 1.03:
1.03 * 2^52 = 4638707616191610.88, rounding to 4638707616191611 (above
1.03). -/
def m103 : Nat := 4638707616191611

/-- Fueled bit length (the fuel only makes the recursion structural; 128
covers every product reached here). -/
def bitLen : Nat → Nat → Nat
  | 0, _ => 0
  | fuel + 1, n => if n = 0 then 0 else bitLen fuel (n / 2) + 1

/-- Rounds an integer to 53 significant bits, ties to even: the IEEE-754
binary64 significand rounding applied to an exact integer product. -/
def roundSig53 (n : Nat) : Nat :=
  let bits := bitLen 128 n
  if bits ≤ 53 then n
  else
    let k := bits - 53
    let q := n / 2 ^ k
    let r := n % 2 ^ k
    let h := 2 ^ (k - 1)
    let q2 := if h < r ∨ (r = h ∧ q % 2 = 1) then q + 1 else q
    q2 * 2 ^ k

/-- For exact integer `t` (below 2^53) and a multiplier given as significand
`m` over 2^52, the double-precision product is `roundSig53 (t*m) / 2^52`;
`f64::round` (half away from zero, positive values) followed by `as u64` is
`floor(x + 1/2)`, i.e. `(2 * roundSig53 (t*m) + 2^52) / 2^53` in integers. -/
def f64MulRoundHalfAway (t m : Nat) : Nat :=
  (2 * roundSig53 (t * m) + 2 ^ 52) / 2 ^ 53

/-- ASCII lowercase of one character. -/
def charToLower (c : Char) : Char :=
  if 65 ≤ c.toNat ∧ c.toNat ≤ 90 then Char.ofNat (c.toNat + 32) else c

/-- Models `str::to_lowercase` (the model ids involved are ASCII). -/
def strToLower (s : String) : String := .mk (s.toList.map charToLower)

/-- Embeds the heuristic core of `count_tokens` (routes/messages.rs lines
175-210), parameterized by the byte length of
`serde_json::to_string(&openai_payload)`: the base is `ceil(len/4)` (the f64
division by 4 is exact below 2^53, so the integer form is used), tool
overhead 346/480 by lowercased model prefix when the tool list is non-empty,
then the 1.15/1.03 multiplier applied in IEEE-754 double precision and
rounded half-away-from-zero as `f64::round` does. -/
def count_tokens_heuristic (model : String) (hasTools : Bool) (len : Nat) : Nat :=
  let base := (len + 3) / 4
  let lower := strToLower model
  let afterOverhead :=
    if hasTools then
      if strStartsWith lower "claude" then base + 346
      else if strStartsWith lower "grok" then base + 480
      else base
    else base
  if strStartsWith lower "claude" then f64MulRoundHalfAway afterOverhead m115
  else if strStartsWith lower "grok" then f64MulRoundHalfAway afterOverhead m103
  else afterOverhead

/-- Follows the claim's words: `round((ceil(len/4) + overhead) * multiplier)`
in exact rational arithmetic with round half away from zero, written with
integer division: `round(23x/20) = (23x+10)/20` and
`round(103x/100) = (103x+50)/100` (to be compared with the source
computation). -/
def count_tokens_claimed (model : String) (hasTools : Bool) (len : Nat) : Nat :=
  let base := (len + 3) / 4
  let lower := strToLower model
  let afterOverhead :=
    if hasTools then
      if strStartsWith lower "claude" then base + 346
      else if strStartsWith lower "grok" then base + 480
      else base
    else base
  if strStartsWith lower "claude" then (23 * afterOverhead + 10) / 20
  else if strStartsWith lower "grok" then (103 * afterOverhead + 50) / 100
  else afterOverhead

end Messages

/-! ## Chat-completions to Anthropic streaming adapter (routes/messages.rs) -/

namespace Stream

/-- One tool-call delta inside a streamed chunk, as reached through the
source's `.get` chains (`index` read with `as_u64`). -/
structure ToolCallDelta where
  index : Option Nat
  id : Option String
  name : Option String
  arguments : Option String
  deriving Repr, DecidableEq

/-- The first choice of a streamed chunk: the delta's text content and tool
calls (an absent `delta` equals the empty object, i.e. both `none`), and the
choice's finish_reason. -/
structure ChunkChoice where
  content : Option String
  tool_calls : Option (List ToolCallDelta)
  finish_reason : Option String
  deriving Repr, DecidableEq

/-- A parsed upstream chunk as `translate_chunk_to_anthropic_events` reads
it; an absent or non-array `choices` collapses to the empty list. -/
structure Chunk where
  id : Option String
  model : Option String
  choices : List ChunkChoice
  usage : Messages.RespUsage
  deriving Repr, DecidableEq

/-- Embeds `extract_usage` (messages.rs lines 847-867): input tokens are
prompt minus cached (saturating) when cached is reported, the completion
count, and the optional cached count. -/
def extract_usage (c : Chunk) : Nat × Nat × Option Nat :=
  let prompt := c.usage.prompt_tokens.getD 0
  let completion := c.usage.completion_tokens.getD 0
  let cached := c.usage.cached_tokens
  ((match cached with | some k => prompt - k | none => prompt), completion, cached)

/-- Per-stream translation state (`AnthropicStreamState`, messages.rs lines
781-786); the `HashMap` from upstream tool index to Anthropic block index is
an association list with unique keys. -/
structure AnthropicStreamState where
  message_start_sent : Bool
  content_block_index : Nat
  content_block_open : Bool
  tool_calls : List (Nat × Nat)
  deriving Repr, DecidableEq

/-- `AnthropicStreamState::default()`. -/
def initialState : AnthropicStreamState := ⟨false, 0, false, []⟩

/-- `HashMap::insert`: replaces any existing entry for the key. -/
def mapInsert (k v : Nat) (m : List (Nat × Nat)) : List (Nat × Nat) :=
  (k, v) :: m.filter (fun p => p.1 != k)

/-- Embeds `is_tool_block_open` (messages.rs lines 793-801): a block is open
and some recorded tool mapping targets the current index. -/
def is_tool_block_open (s : AnthropicStreamState) : Bool :=
  s.content_block_open && s.tool_calls.any (fun p => p.2 == s.content_block_index)

/-- The Anthropic stream events, mirroring the `json!` literals the
translator emits; `message_start` carries the initial usage (its
output_tokens is the constant 0 in the source). -/
inductive AnthEvent
  | message_start (id model : String) (input_tokens : Nat) (cached : Option Nat)
  | content_block_start_text (index : Nat)
  | content_block_start_tool (index : Nat) (id name : String)
  | content_block_delta_text (index : Nat) (text : String)
  | content_block_delta_json (index : Nat) (fragment : String)
  | content_block_stop (index : Nat)
  | message_delta (stop_reason : String) (input output : Nat) (cached : Option Nat)
  | message_stop
  deriving Repr, DecidableEq

/-- The message_start phase (messages.rs lines 882-906). -/
def startPhase (c : Chunk) (s : AnthropicStreamState) :
    List AnthEvent × AnthropicStreamState :=
  if s.message_start_sent then ([], s)
  else
    let u := extract_usage c
    ([.message_start (c.id.getD "msg_unknown") (c.model.getD "unknown") u.1 u.2.2],
      { s with message_start_sent := true })

/-- The text-delta phase (messages.rs lines 908-932): close an open tool
block (advancing the index), open a text block when none is open, then emit
the text delta. -/
def textPhase (content : Option String) (s : AnthropicStreamState) :
    List AnthEvent × AnthropicStreamState :=
  match content with
  | none => ([], s)
  | some txt =>
    let step1 :=
      if is_tool_block_open s then
        ([AnthEvent.content_block_stop s.content_block_index],
          { s with content_block_index := s.content_block_index + 1,
                   content_block_open := false })
      else (([] : List AnthEvent), s)
    let step2 :=
      if !step1.2.content_block_open then
        (step1.1 ++ [AnthEvent.content_block_start_text step1.2.content_block_index],
          { step1.2 with content_block_open := true })
      else step1
    (step2.1 ++ [.content_block_delta_text step2.2.content_block_index txt], step2.2)

/-- One tool-call delta (messages.rs lines 935-984): with both id and name
present, close any open block (advancing the index), record the mapping and
open the tool block; then an arguments fragment emits an input_json_delta
against the recorded block, or is dropped when no mapping exists. -/
def toolStep (tc : ToolCallDelta) (s : AnthropicStreamState) :
    List AnthEvent × AnthropicStreamState :=
  let idx := tc.index.getD 0
  let step1 :=
    match tc.id, tc.name with
    | some tid, some tname =>
      let stopStep :=
        if s.content_block_open then
          ([AnthEvent.content_block_stop s.content_block_index],
            { s with content_block_index := s.content_block_index + 1,
                     content_block_open := false })
        else (([] : List AnthEvent), s)
      let aIdx := stopStep.2.content_block_index
      (stopStep.1 ++ [AnthEvent.content_block_start_tool aIdx tid tname],
        { stopStep.2 with
            tool_calls := mapInsert idx aIdx stopStep.2.tool_calls,
            content_block_open := true })
    | _, _ => (([] : List AnthEvent), s)
  match tc.arguments with
  | some args =>
    (match step1.2.tool_calls.lookup idx with
     | some b => (step1.1 ++ [.content_block_delta_json b args], step1.2)
     | none => step1)
  | none => step1

/-- The tool-calls phase folds the deltas in order. -/
def toolPhase : List ToolCallDelta → AnthropicStreamState →
    List AnthEvent × AnthropicStreamState
  | [], s => ([], s)
  | tc :: rest, s =>
    let step := toolStep tc s
    let next := toolPhase rest step.2
    (step.1 ++ next.1, next.2)

/-- The finish_reason phase (messages.rs lines 987-1011): close any open
block (without advancing the index), then emit message_delta with the mapped
stop reason and final usage, and message_stop. -/
def finishPhase (c : Chunk) (fin : Option String) (s : AnthropicStreamState) :
    List AnthEvent × AnthropicStreamState :=
  match fin with
  | none => ([], s)
  | some reason =>
    let step1 :=
      if s.content_block_open then
        ([AnthEvent.content_block_stop s.content_block_index],
          { s with content_block_open := false })
      else (([] : List AnthEvent), s)
    let u := extract_usage c
    (step1.1 ++
      [.message_delta (Messages.map_openai_stop_reason reason) u.1 u.2.1 u.2.2,
        .message_stop], step1.2)

/-- Embeds `translate_chunk_to_anthropic_events` (messages.rs lines
869-1014): a chunk without a first choice produces nothing; otherwise the
message_start, text-delta, tool-calls and finish_reason phases run in order
on the shared state. -/
def translate_chunk_to_anthropic_events (c : Chunk) (s : AnthropicStreamState) :
    List AnthEvent × AnthropicStreamState :=
  match c.choices.head? with
  | none => ([], s)
  | some choice =>
    let p1 := startPhase c s
    let p2 := textPhase choice.content p1.2
    let p3 := toolPhase (choice.tool_calls.getD []) p2.2
    let p4 := finishPhase c choice.finish_reason p3.2
    (p1.1 ++ p2.1 ++ p3.1 ++ p4.1, p4.2)

/-- Feeds a chunk sequence through the translator in order, concatenating
the emitted events, as the SSE loop of `stream_anthropic` does. -/
def runChunks : List Chunk → AnthropicStreamState →
    List AnthEvent × AnthropicStreamState
  | [], s => ([], s)
  | c :: cs, s =>
    let step := translate_chunk_to_anthropic_events c s
    let next := runChunks cs step.2
    (step.1 ++ next.1, next.2)

/-- The finish_reason carried by a chunk (on its first choice). -/
def chunkFinish (c : Chunk) : Option String :=
  c.choices.head?.bind (fun ch => ch.finish_reason)

/-- Event classifiers for the session well-formedness predicate. -/
def isMessageStart : AnthEvent → Bool
  | .message_start _ _ _ _ => true
  | _ => false

/-- True on message_delta events. -/
def isMessageDelta : AnthEvent → Bool
  | .message_delta _ _ _ _ => true
  | _ => false

/-- True on message_stop events. -/
def isMessageStop : AnthEvent → Bool
  | .message_stop => true
  | _ => false

/-- The index of a content_block_start event. -/
def startIndex : AnthEvent → Option Nat
  | .content_block_start_text i => some i
  | .content_block_start_tool i _ _ => some i
  | _ => none

/-- The index of a content_block_delta event. -/
def deltaIndex : AnthEvent → Option Nat
  | .content_block_delta_text i _ => some i
  | .content_block_delta_json i _ => some i
  | _ => none

/-- The index of a content_block_stop event. -/
def stopIndex : AnthEvent → Option Nat
  | .content_block_stop i => some i
  | _ => none

/-- State of the block-lifecycle scanner: the currently open block index and
the indices already started. -/
structure ScanSt where
  openB : Option Nat
  used : List Nat
  deriving Repr, DecidableEq

/-- One scanner step: a start requires no open block and a fresh index; a
delta requires its block open; a stop closes the open block; message events
pass through.  Failure (`none`) marks a lifecycle violation. -/
def scanStep (st : ScanSt) (e : AnthEvent) : Option ScanSt :=
  match startIndex e with
  | some i =>
    if st.openB = none ∧ i ∉ st.used then some ⟨some i, i :: st.used⟩ else none
  | none =>
    match deltaIndex e with
    | some i => if st.openB = some i then some st else none
    | none =>
      match stopIndex e with
      | some i => if st.openB = some i then some ⟨none, st.used⟩ else none
      | none => some st

/-- Scans an event list, threading failure. -/
def scanList : Option ScanSt → List AnthEvent → Option ScanSt
  | st, [] => st
  | st, e :: rest => scanList (st.bind (fun sc => scanStep sc e)) rest

/-- The block-lifecycle clause of the claim: every start is on a fresh index
with no block open, deltas hit the open block, every stop closes the open
block, and no block is left open at the end. -/
def blocksOK (es : List AnthEvent) : Bool :=
  match scanList (some ⟨none, []⟩) es with
  | some st => st.openB == none
  | none => false

/-- The closing clause: the last two events are message_delta then
message_stop. -/
def endsWithDeltaStop (es : List AnthEvent) : Bool :=
  match es.reverse with
  | e1 :: e2 :: _ => isMessageStop e1 && isMessageDelta e2
  | _ => false

/-- The claim's session well-formedness: starts with exactly one
message_start, block lifecycles are well formed, and the sequence concludes
with exactly one message_delta followed by exactly one message_stop. -/
def sessionOK (es : List AnthEvent) : Bool :=
  (match es.head? with
   | some e => isMessageStart e
   | none => false) &&
  es.countP isMessageStart == 1 &&
  blocksOK es &&
  es.countP isMessageDelta == 1 &&
  es.countP isMessageStop == 1 &&
  endsWithDeltaStop es

/-- Argument fragments of one tool-call delta target the currently open
block: either a fresh mapping is being recorded (id and name present), or no
mapping exists (the fragment is dropped), or the recorded block is the one
still open. -/
def toolStepOK (tc : ToolCallDelta) (s : AnthropicStreamState) : Bool :=
  match tc.arguments with
  | none => true
  | some _ =>
    if tc.id.isSome && tc.name.isSome then true
    else
      match s.tool_calls.lookup (tc.index.getD 0) with
      | none => true
      | some b => s.content_block_open && b == s.content_block_index

/-- `toolStepOK` along the fold of a delta list. -/
def toolPhaseOK : List ToolCallDelta → AnthropicStreamState → Bool
  | [], _ => true
  | tc :: rest, s => toolStepOK tc s && toolPhaseOK rest (toolStep tc s).2

/-- The no-stale-arguments proviso for one chunk, checked at the state the
tool phase actually sees. -/
def chunkOK (c : Chunk) (s : AnthropicStreamState) : Bool :=
  match c.choices.head? with
  | none => true
  | some choice =>
    toolPhaseOK (choice.tool_calls.getD [])
      (textPhase choice.content (startPhase c s).2).2

/-- The no-stale-arguments proviso along a chunk sequence. -/
def chunksOK : List Chunk → AnthropicStreamState → Bool
  | [], _ => true
  | c :: cs, s =>
    chunkOK c s && chunksOK cs (translate_chunk_to_anthropic_events c s).2

/-- The block the state believes open, as the scanner sees it. -/
def openOf (s : AnthropicStreamState) : Option Nat :=
  if s.content_block_open then some s.content_block_index else none

/-- The scanner's view of the emitted events agrees with the translation
state: scanning succeeds, the open block is the state's open block, every
started index is bounded by the current index (strictly when no block is
open), and the current index has been started whenever a block is open. -/
def ScanOK (es : List AnthEvent) (s : AnthropicStreamState) : Prop :=
  ∃ used : List Nat,
    scanList (some ⟨none, []⟩) es = some ⟨openOf s, used⟩ ∧
    (∀ j ∈ used, j ≤ s.content_block_index) ∧
    (s.content_block_open = false → ∀ j ∈ used, j < s.content_block_index) ∧
    (s.content_block_open = true → s.content_block_index ∈ used)

/-- The invariant maintained while feeding finish-free chunks from the
default state: the scanner agrees with the state, events start with the
message_start exactly when it has been sent (and are empty before), and no
message_delta or message_stop has been emitted. -/
structure StreamInv (es : List AnthEvent) (s : AnthropicStreamState) : Prop where
  scanOK : ScanOK es s
  head_start : s.message_start_sent = true →
    ∃ a b n k rest, es = AnthEvent.message_start a b n k :: rest
  nil_not_sent : s.message_start_sent = false → es = []
  count_start : es.countP isMessageStart = if s.message_start_sent then 1 else 0
  count_mdelta : es.countP isMessageDelta = 0
  count_mstop : es.countP isMessageStop = 0

/-- Events that are not message_start, message_delta or message_stop. -/
def noMsgEvents (es : List AnthEvent) : Bool :=
  es.all (fun e => !isMessageStart e && !isMessageDelta e && !isMessageStop e)

end Stream

/-! ## Hook matcher DSL (hooks/matcher/evaluator.rs) -/

namespace Hooks

/-- The slice of `HookInput` (hooks/types.rs) read by the matcher evaluator. -/
structure HookInput where
  tool : Option String := none
  tool_input : Option Json := none
  tool_output : Option Json := none

/-- The scalar-to-string conversion at the end of `resolve_json_path`
(evaluator.rs lines 115-120): strings, numbers and booleans resolve, objects,
arrays and null do not. -/
def jsonScalarString (j : Json) : Option String :=
  match j with
  | .str s => some s
  | .num n => some (toString n)
  | .bool b => some (cond b "true" "false")
  | _ => none

/-- Splits a character list at a separator; models `str::split('.')`. -/
def splitOnChar (sep : Char) : List Char → List (List Char)
  | [] => [[]]
  | c :: rest =>
    let r := splitOnChar sep rest
    if c == sep then [] :: r
    else
      match r with
      | h :: t => (c :: h) :: t
      | [] => [[c]]

/-- Walks a dot path through nested objects, as the loop of
`resolve_json_path` does via repeated `Value::get`. -/
def walkPath : List String → Json → Option Json
  | [], j => some j
  | p :: ps, j =>
    match jsonGet j p with
    | some nxt => walkPath ps nxt
    | none => none

/-- Embeds `resolve_json_path` (evaluator.rs lines 110-121). -/
def resolve_json_path (value : Option Json) (path : String) : Option String :=
  match value with
  | none => none
  | some j =>
    match walkPath ((splitOnChar '.' path.toList).map (fun cs => String.mk cs)) j with
    | some cur => jsonScalarString cur
    | none => none

/-- Drops the first n characters; models the byte slice `&field[n..]` (the
prefixes involved are ASCII, so characters coincide with bytes). -/
def strDropChars (s : String) (n : Nat) : String := .mk (s.toList.drop n)

/-- Embeds `resolve_field` (evaluator.rs lines 95-108); 11 and 12 are the
lengths of "tool_input." and "tool_output.". -/
def resolve_field (input : HookInput) (field : String) : Option String :=
  if field = "tool" then input.tool
  else if strStartsWith field "tool_input." then
    resolve_json_path input.tool_input (strDropChars field 11)
  else if strStartsWith field "tool_output." then
    resolve_json_path input.tool_output (strDropChars field 12)
  else none

/-- Regular-expression atom of the modelled fragment: a literal character or
the any-character dot. -/
inductive RAtom
  | ch (c : Char)
  | anyChar
  deriving Repr, DecidableEq

/-- Element of a modelled regular expression: an atom, or an atom under a
postfix Kleene star. -/
inductive RElem
  | once (a : RAtom)
  | star (a : RAtom)
  deriving Repr, DecidableEq

/-- A modelled regular expression: optional anchors and a sequence of
elements. -/
structure RPattern where
  anchorStart : Bool
  anchorEnd : Bool
  elems : List RElem
  deriving Repr, DecidableEq

/-- Characters that are regex metacharacters outside the modelled fragment
(plus the star, which is only legal as a postfix operator).  The braces are
written numerically. -/
def regexMeta (c : Char) : Bool :=
  c == '+' || c == '?' || c == '[' || c == ']' || c == '(' || c == ')' ||
  c == '|' || c == '\\' || c == '^' || c == '$' || c == '*' ||
  c == Char.ofNat 123 || c == Char.ofNat 125

/-- Atom for a pattern character: dot is any-character, the rest literal. -/
def mkAtom (c : Char) : RAtom := if c == '.' then .anyChar else .ch c

/-- Parses the element sequence of a pattern body; `none` on characters
outside the modelled fragment. -/
def parseRElems : List Char → Option (List RElem)
  | [] => some []
  | c :: '*' :: rest =>
    if regexMeta c then none
    else (parseRElems rest).map (fun es => RElem.star (mkAtom c) :: es)
  | c :: rest =>
    if regexMeta c then none
    else (parseRElems rest).map (fun es => RElem.once (mkAtom c) :: es)

/-- Modelled from the spec: `matches` "compiles the RHS as a regular
expression" through the external regex crate, which is not part of this
repository.  The model covers the fragment exercised by the spec's examples:
literal characters, `.`, a postfix `*`, and anchors `^` (leading) and `$`
(trailing).  A pattern outside the fragment yields `none`, which the
evaluator maps to false exactly as it maps a failed `Regex::new`. -/
def regexParse (pat : String) : Option RPattern :=
  let cs := pat.toList
  let startAnchored := cs.head? == some '^'
  let cs1 := if startAnchored then cs.tail else cs
  let endAnchored := cs1.getLast? == some '$'
  let cs2 := if endAnchored then cs1.dropLast else cs1
  (parseRElems cs2).map (fun es => ⟨startAnchored, endAnchored, es⟩)

/-- Whether an atom matches one character. -/
def atomMatch (a : RAtom) (c : Char) : Bool :=
  match a with
  | .ch x => x == c
  | .anyChar => true

/-- Fueled matcher for an element sequence against an input: with the end
anchored the whole input must be consumed, otherwise a prefix match
suffices.  Each recursive call shrinks elements-plus-input, so any fuel
exceeding that sum is enough; the fuel only makes the recursion structural. -/
def matchElemsF : Nat → Bool → List RElem → List Char → Bool
  | 0, _, _, _ => false
  | fuel + 1, endA, es, input =>
    match es, input with
    | [], inp => if endA then inp.isEmpty else true
    | .once _ :: _, [] => false
    | .once a :: rest, c :: inp => atomMatch a c && matchElemsF fuel endA rest inp
    | .star a :: rest, inp =>
      matchElemsF fuel endA rest inp ||
        (match inp with
         | c :: inp2 => atomMatch a c && matchElemsF fuel endA (.star a :: rest) inp2
         | [] => false)

/-- Match a modelled pattern against an input string, models
`Regex::is_match`: anchored patterns match from the start, otherwise any
starting position is tried. -/
def regexIsMatch (pat : RPattern) (s : List Char) : Bool :=
  let fuel := pat.elems.length + s.length + 1
  if pat.anchorStart then matchElemsF fuel pat.anchorEnd pat.elems s
  else (s.tails).any (fun t => matchElemsF fuel pat.anchorEnd pat.elems t)

/-- The three predicate operators of the matcher grammar. -/
inductive MatchOp
  | opEq | opNe | opMatches
  deriving Repr, DecidableEq

/-- Modelled from the spec: the parse-tree shapes produced by the matcher
grammar (the pest grammar file under `hooks/matcher/` is not in src/):
expr = or_expr; or_expr = and_expr (or and_expr)*; and_expr = not_expr
(and not_expr)*; not_expr = optional-negation primary; primary = parenthesised
expr, predicate, or field; predicate = (field or star) op string. -/
inductive MatchExpr
  | orE (l r : MatchExpr)
  | andE (l r : MatchExpr)
  | notE (e : MatchExpr)
  | predE (lhs : String) (op : MatchOp) (rhsRaw : String)
  | fieldE (f : String)
  deriving Repr

/-- Unescapes backslash-quote pairs; models
`inner.replace(backslash-quote, quote)` from `parse_string`. -/
def unescapeQuotes : List Char → List Char
  | [] => []
  | '\\' :: '"' :: rest => '"' :: unescapeQuotes rest
  | c :: rest => c :: unescapeQuotes rest

/-- Embeds `parse_string` (evaluator.rs lines 85-93): trim, strip the
delimiting double quotes when present, unescape embedded quotes. -/
def parse_string (raw : String) : String :=
  let t := (strTrim raw).toList
  if (t.head? == some '"') && (t.getLast? == some '"') && decide (2 ≤ t.length) then
    .mk (unescapeQuotes (t.drop 1).dropLast)
  else .mk t

/-- Embeds `eval_pair` (evaluator.rs lines 19-83) over the parse-tree shapes:
disjunction and conjunction fold their operands, negation flips, a predicate
with a star left-hand side is always true, otherwise the resolved field is
compared under the operator with an unresolved field giving false, and a bare
field tests resolvability. -/
def evalExpr (input : HookInput) : MatchExpr → Bool
  | .orE l r => evalExpr input l || evalExpr input r
  | .andE l r => evalExpr input l && evalExpr input r
  | .notE e => !(evalExpr input e)
  | .predE lhs op rhsRaw =>
    if lhs = "*" then true
    else
      let rhs := parse_string rhsRaw
      match op with
      | .opEq => ((resolve_field input lhs).map (fun v => v == rhs)).getD false
      | .opNe => ((resolve_field input lhs).map (fun v => v != rhs)).getD false
      | .opMatches =>
        match regexParse rhs with
        | none => false
        | some pat =>
          ((resolve_field input lhs).map
            (fun v => regexIsMatch pat v.toList)).getD false
  | .fieldE f => (resolve_field input f).isSome

/-- Tokens of the matcher grammar. -/
inductive MatcherTok
  | lpar | rpar | bang | ampamp | pipepipe | eqeq | bangeq | starTok
  | ident (s : String)
  | strTok (raw : String)
  deriving Repr, DecidableEq

/-- Characters allowed inside a field identifier: letters, digits,
underscore, dot. -/
def isIdentChar (c : Char) : Bool := c.isAlphanum || c == '_' || c == '.'

/-- Scans a double-quoted string literal body, keeping escape sequences
verbatim; returns the raw body and the remaining characters after the
closing quote. -/
def scanStringLit : List Char → List Char → Option (List Char × List Char)
  | _, [] => none
  | acc, '\\' :: c :: rest => scanStringLit (c :: '\\' :: acc) rest
  | acc, '"' :: rest => some (acc.reverse, rest)
  | acc, c :: rest => scanStringLit (c :: acc) rest

/-- Fueled tokenizer; every step consumes at least one character, so fuel
above the input length suffices. -/
def tokenizeGo : Nat → List Char → Option (List MatcherTok)
  | 0, cs => if cs.isEmpty then some [] else none
  | fuel + 1, cs =>
    match cs with
    | [] => some []
    | '|' :: '|' :: rest => (tokenizeGo fuel rest).map (.pipepipe :: ·)
    | '&' :: '&' :: rest => (tokenizeGo fuel rest).map (.ampamp :: ·)
    | '=' :: '=' :: rest => (tokenizeGo fuel rest).map (.eqeq :: ·)
    | '!' :: '=' :: rest => (tokenizeGo fuel rest).map (.bangeq :: ·)
    | '!' :: rest => (tokenizeGo fuel rest).map (.bang :: ·)
    | '(' :: rest => (tokenizeGo fuel rest).map (.lpar :: ·)
    | ')' :: rest => (tokenizeGo fuel rest).map (.rpar :: ·)
    | '*' :: rest => (tokenizeGo fuel rest).map (.starTok :: ·)
    | '"' :: rest =>
      match scanStringLit [] rest with
      | some (content, rest2) =>
        (tokenizeGo fuel rest2).map
          (.strTok (.mk ('"' :: (content ++ ['"']))) :: ·)
      | none => none
    | c :: rest =>
      if c.isWhitespace then tokenizeGo fuel rest
      else if c.isAlpha || c == '_' then
        (tokenizeGo fuel ((c :: rest).dropWhile isIdentChar)).map
          (.ident (.mk ((c :: rest).takeWhile isIdentChar)) :: ·)
      else none

/-- Tokenizes a matcher expression. -/
def tokenize (s : String) : Option (List MatcherTok) :=
  tokenizeGo (s.toList.length + 1) s.toList

/-- Parses the operator-and-string tail of a predicate. -/
def parseOpString : List MatcherTok →
    Option (MatchOp × String × List MatcherTok)
  | .eqeq :: .strTok raw :: rest => some (.opEq, raw, rest)
  | .bangeq :: .strTok raw :: rest => some (.opNe, raw, rest)
  | .ident "matches" :: .strTok raw :: rest => some (.opMatches, raw, rest)
  | _ => none

mutual

/-- Modelled from the spec: recursive-descent parser for the matcher grammar
(the pest grammar file under `hooks/matcher/` is not in src/); fuel bounds
the recursion depth. -/
def parseOrT : Nat → List MatcherTok → Option (MatchExpr × List MatcherTok)
  | 0, _ => none
  | fuel + 1, toks =>
    match parseAndT fuel toks with
    | some (e, rest) => parseOrRest fuel e rest
    | none => none

/-- Left-folds the remaining or-operands. -/
def parseOrRest : Nat → MatchExpr → List MatcherTok →
    Option (MatchExpr × List MatcherTok)
  | 0, _, _ => none
  | fuel + 1, acc, .pipepipe :: rest =>
    match parseAndT fuel rest with
    | some (e, rest2) => parseOrRest fuel (.orE acc e) rest2
    | none => none
  | _ + 1, acc, toks => some (acc, toks)

/-- Parses an and-chain. -/
def parseAndT : Nat → List MatcherTok → Option (MatchExpr × List MatcherTok)
  | 0, _ => none
  | fuel + 1, toks =>
    match parseNotT fuel toks with
    | some (e, rest) => parseAndRest fuel e rest
    | none => none

/-- Left-folds the remaining and-operands. -/
def parseAndRest : Nat → MatchExpr → List MatcherTok →
    Option (MatchExpr × List MatcherTok)
  | 0, _, _ => none
  | fuel + 1, acc, .ampamp :: rest =>
    match parseNotT fuel rest with
    | some (e, rest2) => parseAndRest fuel (.andE acc e) rest2
    | none => none
  | _ + 1, acc, toks => some (acc, toks)

/-- Parses an optionally negated primary. -/
def parseNotT : Nat → List MatcherTok → Option (MatchExpr × List MatcherTok)
  | 0, _ => none
  | fuel + 1, .bang :: rest =>
    match parsePrimaryT fuel rest with
    | some (e, rest2) => some (.notE e, rest2)
    | none => none
  | fuel + 1, toks => parsePrimaryT fuel toks

/-- Parses a primary: a parenthesised expression, a predicate, or a bare
field. -/
def parsePrimaryT : Nat → List MatcherTok → Option (MatchExpr × List MatcherTok)
  | 0, _ => none
  | fuel + 1, .lpar :: rest =>
    (match parseOrT fuel rest with
     | some (e, .rpar :: rest2) => some (e, rest2)
     | _ => none)
  | _ + 1, .starTok :: rest =>
    (parseOpString rest).map (fun (op, raw, rest2) => (.predE "*" op raw, rest2))
  | _ + 1, .ident f :: rest =>
    (match parseOpString rest with
     | some (op, raw, rest2) => some (.predE f op raw, rest2)
     | none => some (.fieldE f, rest))
  | _ + 1, _ => none

end

/-- Parses a whole matcher expression, requiring all tokens consumed. -/
def parseMatcher (s : String) : Option MatchExpr :=
  match tokenize s with
  | none => none
  | some toks =>
    match parseOrT (8 * toks.length + 8) toks with
    | some (e, []) => some e
    | _ => none

/-- Embeds `evaluate` (evaluator.rs lines 10-17): a trimmed bare star is
always true before any parsing; otherwise parse and evaluate, surfacing a
parse failure as an error. -/
def evaluate (expr : String) (input : HookInput) : Except String Bool :=
  if strTrim expr = "*" then .ok true
  else
    match parseMatcher expr with
    | none => .error "parse error"
    | some ast => .ok (evalExpr input ast)

end Hooks

/-! ## Supporting lemmas -/

/-- The structural ceiling agrees with Mathlib's `⌈⌉`. -/
theorem ratCeil_eq_ceil (q : ℚ) : ratCeil q = ⌈q⌉ := by
  rw [ratCeil, ← Rat.floor_def, Int.floor_neg, neg_neg]

/-- A successful association-list lookup returns one of the stored values. -/
theorem lookup_mem_snd {l : List (String × String)} {k v : String}
    (h : l.lookup k = some v) : v ∈ l.map Prod.snd := by
  induction l with
  | nil => simp [List.lookup] at h
  | cons p rest ih =>
    obtain ⟨a, b⟩ := p
    rw [List.lookup] at h
    split at h
    · obtain rfl := Option.some_inj.mp h
      exact List.mem_cons_self _ _
    · exact List.mem_cons_of_mem _ (ih h)

/-- The four upstream ids that the alias tables map onto. -/
def aliasTargets : List String :=
  ["gpt-5.2-codex", "gpt-5.1-codex", "gpt-5-mini", "gpt-5.1"]

/-- Every output of the messages-route resolver is the input itself or one of
the four fixed upstream ids. -/
theorem messages_resolve_mem (m : String) :
    Messages.resolve_model_alias m = m ∨
      Messages.resolve_model_alias m ∈ aliasTargets := by
  unfold Messages.resolve_model_alias
  split_ifs
  · right; decide
  · right; decide
  · right; decide
  · cases hl : Messages.aliasTable.lookup m with
    | some v =>
      right
      simp only [hl]
      have hall : ∀ x ∈ Messages.aliasTable.map Prod.snd, x ∈ aliasTargets := by decide
      exact hall v (lookup_mem_snd hl)
    | none => left; simp only [hl]

/-- Every output of the chat-completions-route resolver is the input itself or
one of the four fixed upstream ids. -/
theorem chatcomp_resolve_mem (m : String) :
    ChatComp.resolve_model_alias m = m ∨
      ChatComp.resolve_model_alias m ∈ aliasTargets := by
  unfold ChatComp.resolve_model_alias
  split_ifs
  · right; decide
  · right; decide
  · right; decide
  · cases hl : ChatComp.aliasTable.lookup m with
    | some v =>
      right
      simp only [hl]
      have hall : ∀ x ∈ ChatComp.aliasTable.map Prod.snd, x ∈ aliasTargets := by decide
      exact hall v (lookup_mem_snd hl)
    | none => left; simp only [hl]

/-- The four fixed upstream ids are fixed points of both resolvers. -/
theorem aliasTargets_fixed :
    ∀ x ∈ aliasTargets,
      Messages.resolve_model_alias x = x ∧ ChatComp.resolve_model_alias x = x := by
  decide

/-! ## Claim theorems: alias resolution, auth, rate limit -/

/-- C4: for every model id string, applying `resolve_model_alias` to its own
output returns that output unchanged, both for the messages route and for the
chat-completions route. -/
theorem resolve_model_alias_idempotent (id : String) :
    Messages.resolve_model_alias (Messages.resolve_model_alias id) =
      Messages.resolve_model_alias id ∧
    ChatComp.resolve_model_alias (ChatComp.resolve_model_alias id) =
      ChatComp.resolve_model_alias id := by
  constructor
  · rcases messages_resolve_mem id with h | h
    · rw [h]; exact h
    · exact (aliasTargets_fixed _ h).1
  · rcases chatcomp_resolve_mem id with h | h
    · rw [h]; exact h
    · exact (aliasTargets_fixed _ h).2

/-- C3 (code bug): when no GitHub token is cached and the persisted-token read
fails, `ensure_github_token` propagates the read failure as an internal-class
error instead of treating it as "no token" and surfacing the
unauthenticated-class error; the successful-read and cached paths behave as
described (non-empty token returned and cached). -/
theorem ensure_github_token_read_error_is_internal :
    Auth.ensure_github_token ⟨none⟩ (.error "No such file or directory (os error 2)") =
      .error (.Internal "Failed to read token: No such file or directory (os error 2)") ∧
    Auth.ensure_github_token ⟨none⟩ (.ok "tok\n") = .ok ("tok", ⟨some "tok"⟩) ∧
    Auth.ensure_github_token ⟨some "cached"⟩ (.error "read failed") =
      .ok ("cached", ⟨some "cached"⟩) :=
  ⟨rfl, rfl, rfl⟩

/-- C5 counterexample: with no rate limit configured, `check_rate_limit`
returns Ok but leaves the stored last-request timestamp untouched, refuting
the claim that every Ok outcome updates the stored timestamp when the
decision to proceed is made. -/
theorem check_rate_limit_counterexample :
    (RateLimit.check_rate_limit ⟨none, false, some 5⟩ 100 100).1 = .ok () ∧
    (RateLimit.check_rate_limit
        ⟨none, false, some 5⟩ 100 100).2.1.last_request_timestamp = some 5 ∧
    (5 : ℚ) ≠ 100 :=
  ⟨rfl, rfl, by decide⟩

/-- C5 (amended): when a limit of L seconds is configured and the stored
timestamp is strictly within the last L seconds, wait-mode off yields a
bad-request error naming the remaining (ceiling) seconds and leaves the
config unchanged; the accepted cases with a limit configured (window elapsed,
no previous timestamp, or wait-mode sleep completed) update the stored
timestamp at the moment the decision to proceed is made; with no limit
configured the call succeeds without touching the stored timestamp. -/
theorem check_rate_limit_spec (cfg : RateLimit.RateConfig) (now nowAfterSleep : ℚ) :
    (cfg.rate_limit_seconds = none →
      RateLimit.check_rate_limit cfg now nowAfterSleep = (.ok (), cfg, none)) ∧
    (∀ L last, cfg.rate_limit_seconds = some L →
      cfg.last_request_timestamp = some last →
      now - last < (L : ℚ) → cfg.rate_limit_wait = false →
      RateLimit.check_rate_limit cfg now nowAfterSleep =
        (.error (.BadRequest ("Rate limit exceeded. Wait " ++
            toString (ratCeil ((L : ℚ) - (now - last))).toNat ++ " seconds.")),
          cfg, none)) ∧
    (∀ L last, cfg.rate_limit_seconds = some L →
      cfg.last_request_timestamp = some last →
      now - last < (L : ℚ) → cfg.rate_limit_wait = true →
      RateLimit.check_rate_limit cfg now nowAfterSleep =
        (.ok (), { cfg with last_request_timestamp := some nowAfterSleep },
          some (ratCeil ((L : ℚ) - (now - last))).toNat)) ∧
    (∀ L last, cfg.rate_limit_seconds = some L →
      cfg.last_request_timestamp = some last →
      ¬ (now - last < (L : ℚ)) →
      RateLimit.check_rate_limit cfg now nowAfterSleep =
        (.ok (), { cfg with last_request_timestamp := some now }, none)) ∧
    (∀ L, cfg.rate_limit_seconds = some L → cfg.last_request_timestamp = none →
      RateLimit.check_rate_limit cfg now nowAfterSleep =
        (.ok (), { cfg with last_request_timestamp := some now }, none)) := by
  obtain ⟨sec, wait, last⟩ := cfg
  refine ⟨?_, ?_, ?_, ?_, ?_⟩
  · rintro rfl; rfl
  · rintro L lst rfl h hlt hw
    obtain rfl : last = some lst := h
    simp only at hw
    subst hw
    simp [RateLimit.check_rate_limit, hlt]
  · rintro L lst rfl h hlt hw
    obtain rfl : last = some lst := h
    simp only at hw
    subst hw
    simp [RateLimit.check_rate_limit, hlt]
  · rintro L lst rfl h hge
    obtain rfl : last = some lst := h
    simp [RateLimit.check_rate_limit, hge]
  · rintro L rfl h
    obtain rfl : last = none := h
    rfl

/-- Witness for the amended C5 theorem: limit 10, last request at time 0,
current time 3, wait-mode off. -/
theorem check_rate_limit_spec_witness :
    RateLimit.check_rate_limit ⟨some 10, false, some 0⟩ 3 3 =
      (.error (.BadRequest ("Rate limit exceeded. Wait " ++
          toString (ratCeil ((10 : ℚ) - (3 - 0))).toNat ++ " seconds.")),
        ⟨some 10, false, some 0⟩, none) :=
  (check_rate_limit_spec ⟨some 10, false, some 0⟩ 3 3).2.1 10 0 rfl rfl
    (by norm_num) rfl

/-- C6: the matcher DSL evaluator satisfies the four examples of the spec: a
bare star accepts every input; an equality predicate on the tool name accepts
a matching tool; its negation rejects it; and a regular-expression predicate
accepts a tool name matching the anchored pattern. -/
theorem matcher_dsl_examples :
    (∀ input : Hooks.HookInput, Hooks.evaluate "*" input = .ok true) ∧
    (∀ input : Hooks.HookInput, input.tool = some "Bash" →
      Hooks.evaluate "tool == \"Bash\"" input = .ok true) ∧
    (∀ input : Hooks.HookInput, input.tool = some "Bash" →
      Hooks.evaluate "!(tool == \"Bash\")" input = .ok false) ∧
    (∀ input : Hooks.HookInput, input.tool = some "ReadFile" →
      Hooks.evaluate "tool matches \"^Read.*\"" input = .ok true) := by
  refine ⟨fun input => rfl, ?_, ?_, ?_⟩ <;>
    · rintro ⟨tl, ti, tout⟩ h
      simp only at h
      subst h
      rfl

/-- Witness for C6 at concrete hook inputs. -/
theorem matcher_dsl_examples_witness :
    Hooks.evaluate "*" ⟨some "Bash", none, none⟩ = .ok true ∧
    Hooks.evaluate "tool == \"Bash\"" ⟨some "Bash", none, none⟩ = .ok true ∧
    Hooks.evaluate "!(tool == \"Bash\")" ⟨some "Bash", none, none⟩ = .ok false ∧
    Hooks.evaluate "tool matches \"^Read.*\"" ⟨some "ReadFile", none, none⟩ = .ok true :=
  ⟨matcher_dsl_examples.1 _, matcher_dsl_examples.2.1 _ rfl,
    matcher_dsl_examples.2.2.1 _ rfl, matcher_dsl_examples.2.2.2 _ rfl⟩

/-- C10: a predicate whose field does not resolve evaluates to false under
every operator (in particular an inequality on an absent tool); a bare field
as a primary evaluates to true exactly when the field resolves; an absent
tool makes the tool field unresolvable; and objects, arrays and null never
resolve to a scalar string. -/
theorem unresolved_field_evaluates_false :
    (∀ (input : Hooks.HookInput) (f : String) (op : Hooks.MatchOp) (raw : String),
      f ≠ "*" → Hooks.resolve_field input f = none →
      Hooks.evalExpr input (.predE f op raw) = false) ∧
    (∀ (input : Hooks.HookInput) (f : String),
      Hooks.evalExpr input (.fieldE f) = (Hooks.resolve_field input f).isSome) ∧
    (∀ input : Hooks.HookInput, input.tool = none →
      Hooks.resolve_field input "tool" = none) ∧
    (∀ j : Json,
      ((∃ fs, j = .obj fs) ∨ (∃ es, j = .arr es) ∨ j = .null) →
      Hooks.jsonScalarString j = none) := by
  refine ⟨?_, fun input f => rfl, ?_, ?_⟩
  · intro input f op raw hf hres
    cases op <;> simp [Hooks.evalExpr, hf, hres] <;>
      cases Hooks.regexParse (Hooks.parse_string raw) <;> rfl
  · intro input h
    simp [Hooks.resolve_field, h]
  · rintro j (⟨fs, rfl⟩ | ⟨es, rfl⟩ | rfl) <;> rfl

/-- The stop-reason component of the translation's fold depends only on the
finish reasons, in order. -/
theorem fold_stop_eq (choices : List Messages.RespChoice) :
    ∀ acc : List Messages.ABlock × List Messages.ABlock × Option String,
      (choices.foldl (fun acc choice =>
        (acc.1 ++ Messages.textBlocksOfContent choice.content,
          acc.2.1 ++ Messages.toolBlocksOfChoice choice,
          match choice.finish_reason with
          | some r => some r
          | none => acc.2.2)) acc).2.2 =
      choices.foldl
        (fun a c => match c.finish_reason with | some r => some r | none => a)
        acc.2.2 := by
  induction choices with
  | nil => intro acc; rfl
  | cons c rest ih =>
    intro acc
    simp only [List.foldl_cons]
    rw [ih]

/-- A string starting with "grok" does not start with "claude". -/
theorem not_claude_of_grok (s : String) (h : strStartsWith s "grok" = true) :
    strStartsWith s "claude" = false := by
  unfold strStartsWith at h ⊢
  cases hl : s.toList with
  | nil => rw [hl] at h; simp [List.isPrefixOf] at h
  | cons c rest =>
    have hc : c = 'g' := by
      rw [hl] at h
      simp only [show "grok".toList = ['g', 'r', 'o', 'k'] from rfl,
        List.isPrefixOf, Bool.and_eq_true, beq_iff_eq] at h
      exact h.1.symm
    subst hc
    simp [show "claude".toList = ['c', 'l', 'a', 'u', 'd', 'e'] from rfl,
      List.isPrefixOf]

/-- C7 counterexample: when the last choice reports no finish_reason but an
earlier choice reported one, the translation maps the earlier reason instead
of defaulting to end_turn as the claim's reading of "the last choice's
finish_reason" requires. -/
theorem translate_stop_reason_counterexample :
    (Messages.translate_to_anthropic
        ⟨[⟨none, none, some "length"⟩, ⟨none, none, none⟩], ⟨none, none, none⟩⟩
        "m").stop_reason = "max_tokens" ∧
    Messages.lastChoiceStopReason
        ⟨[⟨none, none, some "length"⟩, ⟨none, none, none⟩], ⟨none, none, none⟩⟩ =
      "end_turn" ∧
    "max_tokens" ≠ "end_turn" :=
  ⟨rfl, rfl, by decide⟩

/-- C7 (amended): `translate_to_anthropic` derives stop_reason from the last
finish_reason reported across the choices (end_turn when none is reported),
mapped length to max_tokens, tool_calls to tool_use, content_filter to
itself, everything else to end_turn; usage carries
input_tokens = prompt_tokens − cached_tokens (saturating at 0; plain
prompt_tokens when no cached-tokens field is present),
output_tokens = completion_tokens, and the cache_read_input_tokens field is
present exactly when the upstream reports cached tokens, with that value. -/
theorem translate_to_anthropic_spec (openai : Messages.OpenAIResponse)
    (model : String) :
    (Messages.translate_to_anthropic openai model).stop_reason =
      ((Messages.lastReported openai.choices).map
        Messages.map_openai_stop_reason).getD "end_turn" ∧
    (Messages.translate_to_anthropic openai model).input_tokens =
      (match openai.usage.cached_tokens with
       | some c => openai.usage.prompt_tokens.getD 0 - c
       | none => openai.usage.prompt_tokens.getD 0) ∧
    (Messages.translate_to_anthropic openai model).output_tokens =
      openai.usage.completion_tokens.getD 0 ∧
    (Messages.translate_to_anthropic openai model).cache_read_input_tokens =
      openai.usage.cached_tokens ∧
    Messages.map_openai_stop_reason "length" = "max_tokens" ∧
    Messages.map_openai_stop_reason "tool_calls" = "tool_use" ∧
    Messages.map_openai_stop_reason "content_filter" = "content_filter" ∧
    (∀ r, r ≠ "length" → r ≠ "tool_calls" → r ≠ "content_filter" →
      Messages.map_openai_stop_reason r = "end_turn") := by
  obtain ⟨choices, pt, ct, cache⟩ := openai
  refine ⟨?_, ?_, rfl, rfl, rfl, rfl, rfl, ?_⟩
  · simp only [Messages.translate_to_anthropic, Messages.lastReported]
    rw [fold_stop_eq]
  · cases cache <;> rfl
  · intro r h1 h2 h3
    simp [Messages.map_openai_stop_reason, h1, h2, h3]

/-- Witness for the amended C7 theorem at a concrete upstream response. -/
theorem translate_to_anthropic_spec_witness :
    (Messages.translate_to_anthropic
        ⟨[⟨none, none, some "stop"⟩], ⟨some 100, some 7, some 30⟩⟩ "m").stop_reason =
      ((Messages.lastReported [⟨none, none, some "stop"⟩]).map
        Messages.map_openai_stop_reason).getD "end_turn" ∧
    Messages.map_openai_stop_reason "stop" = "end_turn" :=
  ⟨(translate_to_anthropic_spec
      ⟨[⟨none, none, some "stop"⟩], ⟨some 100, some 7, some 30⟩⟩ "m").1,
    (translate_to_anthropic_spec
      ⟨[⟨none, none, some "stop"⟩], ⟨some 100, some 7, some 30⟩⟩
      "m").2.2.2.2.2.2.2 "stop" (by decide) (by decide) (by decide)⟩

/-- C8 counterexample: at serialized length 96 with a Claude model and tools,
the double-precision product (24 + 346) * 1.15 is 425.49999999999994, so the
code returns 425, while the claim's exact formula round((24 + 346) * 1.15) =
round(425.5) is 426. -/
theorem count_tokens_rounding_counterexample :
    Messages.count_tokens_heuristic "claude-3.5-sonnet" true 96 = 425 ∧
    Messages.count_tokens_claimed "claude-3.5-sonnet" true 96 = 426 ∧
    (425 : Nat) ≠ 426 :=
  ⟨by decide, by decide, by decide⟩

/-- C8 (amended): the heuristic returns
round_f64((ceil(len/4) + overhead) *f64 multiplier) where the overhead is
346 for claude-prefixed models and 480 for grok-prefixed ones (applied only
when tools are present), the multiplier 1.15 resp. 1.03 is applied in
IEEE-754 double precision (so the result can differ by one from the exact
rational rounding at half-integer boundaries), and other models get neither
overhead nor multiplier. -/
theorem count_tokens_heuristic_spec :
    (∀ (model : String) (hasTools : Bool) (len : Nat),
      strStartsWith (Messages.strToLower model) "claude" = true →
      Messages.count_tokens_heuristic model hasTools len =
        Messages.f64MulRoundHalfAway
          ((len + 3) / 4 + (if hasTools then 346 else 0)) Messages.m115) ∧
    (∀ (model : String) (hasTools : Bool) (len : Nat),
      strStartsWith (Messages.strToLower model) "grok" = true →
      Messages.count_tokens_heuristic model hasTools len =
        Messages.f64MulRoundHalfAway
          ((len + 3) / 4 + (if hasTools then 480 else 0)) Messages.m103) ∧
    (∀ (model : String) (hasTools : Bool) (len : Nat),
      strStartsWith (Messages.strToLower model) "claude" = false →
      strStartsWith (Messages.strToLower model) "grok" = false →
      Messages.count_tokens_heuristic model hasTools len = (len + 3) / 4) := by
  refine ⟨?_, ?_, ?_⟩
  · intro model hasTools len h
    cases hasTools <;> simp [Messages.count_tokens_heuristic, h]
  · intro model hasTools len h
    have hc := not_claude_of_grok _ h
    cases hasTools <;> simp [Messages.count_tokens_heuristic, h, hc]
  · intro model hasTools len h1 h2
    cases hasTools <;> simp [Messages.count_tokens_heuristic, h1, h2]

/-- Witness for the amended C8 theorem: the spec's own count_tokens
scenario model and a tool present, at serialized length 96. -/
theorem count_tokens_heuristic_spec_witness :
    Messages.count_tokens_heuristic "claude-3.5-sonnet" true 96 =
      Messages.f64MulRoundHalfAway ((96 + 3) / 4 + (if true then 346 else 0))
        Messages.m115 :=
  count_tokens_heuristic_spec.1 "claude-3.5-sonnet" true 96 (by decide)

/-- C2 counterexample: for an assistant message with one tool call, the
emitted `function_call` item has no `arguments` member on the wire — the
struct has none and serde emits none — while the arguments string is carried
in the `output` field; so the item does not carry an `arguments` field as the
claim states. -/
theorem responses_function_call_arguments_counterexample :
    Responses.messages_to_responses_input
        [⟨"assistant", .str "ok", none,
          some [⟨"call-1", "function", ⟨"doit", "[1,2]"⟩⟩], none⟩] =
      [⟨"message", some "assistant", some (.str "ok"), none, none, none, none, none⟩,
        ⟨"function_call", none, none, none, some "call-1", some "call-1",
          some "doit", some "[1,2]"⟩] ∧
    (Responses.itemToJson
        ⟨"function_call", none, none, none, some "call-1", some "call-1",
          some "doit", some "[1,2]"⟩).lookup "arguments" = none ∧
    (Responses.itemToJson
        ⟨"function_call", none, none, none, some "call-1", some "call-1",
          some "doit", some "[1,2]"⟩).lookup "output" = some (.str "[1,2]") :=
  ⟨rfl, rfl, rfl⟩

/-- The system-message string contents can be collected in one pass: the
filter-then-filterMap of the source equals a single filterMap. -/
theorem sysStrings_eq (msgs : List Responses.Message) :
    (msgs.filter (fun m => m.role == "system")).filterMap
        (fun m => m.content.asStr) =
      msgs.filterMap
        (fun m => if m.role = "system" then m.content.asStr else none) := by
  induction msgs with
  | nil => rfl
  | cons m rest ih =>
    by_cases hm : m.role = "system" <;>
      cases hc : m.content.asStr <;>
        simp [List.filter_cons, List.filterMap_cons, hm, hc, ih]

/-- C2 (amended): the translation maps each message independently, in order;
system messages contribute no items; a user or assistant text message becomes
a message item with that role and its text as content; each assistant tool
call becomes a `function_call` item carrying the call id (as both `id` and
`call_id`) and the name, with the arguments string carried in the item's
`output` field; a tool message becomes a `function_call_output` item carrying
`call_id` and the output string; and `extract_instructions` returns the
blank-line join of the string contents of the system messages, `none` when
there are none. -/
theorem messages_to_responses_input_spec :
    (∀ a b, Responses.messages_to_responses_input (a ++ b) =
      Responses.messages_to_responses_input a ++
        Responses.messages_to_responses_input b) ∧
    (∀ m : Responses.Message, m.role = "system" →
      Responses.messages_to_responses_input [m] = []) ∧
    (∀ (m : Responses.Message) (text : String),
      m.role = "user" → m.content = .str text →
      Responses.messages_to_responses_input [m] =
        [⟨"message", some "user", some (.str text), none, none, none, none, none⟩]) ∧
    (∀ (m : Responses.Message) (text : String) (tcs : List Responses.ToolCall),
      m.role = "assistant" → m.content = .str text → m.tool_calls = some tcs →
      Responses.messages_to_responses_input [m] =
        ⟨"message", some "assistant", some (.str text), none, none, none, none, none⟩ ::
          tcs.map (fun tc =>
            ⟨"function_call", none, none, none, some tc.id, some tc.id,
              some tc.function.name, some tc.function.arguments⟩)) ∧
    (∀ (m : Responses.Message) (text : String),
      m.role = "tool" → m.content = .str text →
      Responses.messages_to_responses_input [m] =
        [⟨"function_call_output", none, none, none, none, m.tool_call_id,
          none, some text⟩]) ∧
    (∀ msgs : List Responses.Message,
      Responses.extract_instructions msgs =
        (let sys := msgs.filterMap
          (fun m => if m.role = "system" then m.content.asStr else none)
         if sys.isEmpty then none else some (strJoin "\n\n" sys))) := by
  refine ⟨?_, ?_, ?_, ?_, ?_, ?_⟩
  · intro a b
    induction a with
    | nil => rfl
    | cons m rest ih =>
      simp only [List.cons_append, Responses.messages_to_responses_input,
        List.append_eq, ih, List.append_assoc]
  · rintro ⟨role, content, nm, tcs, tcid⟩ h
    simp only at h
    subst h
    rfl
  · rintro ⟨role, content, nm, tcs, tcid⟩ text h hc
    simp only at h hc
    subst h
    subst hc
    rfl
  · rintro ⟨role, content, nm, tcs0, tcid⟩ text tcs h hc htc
    simp only at h hc htc
    subst h
    subst hc
    subst htc
    simp [Responses.messages_to_responses_input, Json.asStr]
  · rintro ⟨role, content, nm, tcs, tcid⟩ text h hc
    simp only at h hc
    subst h
    subst hc
    rfl
  · intro msgs
    simp only [Responses.extract_instructions, sysStrings_eq]

/-- Witness for the amended C2 theorem at a concrete conversation. -/
theorem messages_to_responses_input_spec_witness :
    Responses.messages_to_responses_input
        (([⟨"system", .str "sys", none, none, none⟩] :
            List Responses.Message) ++
          [⟨"user", .str "hello", none, none, none⟩,
            ⟨"tool", .str "done", none, none, some "call-1"⟩]) =
      [⟨"message", some "user", some (.str "hello"), none, none, none, none, none⟩,
        ⟨"function_call_output", none, none, none, none, some "call-1",
          none, some "done"⟩] ∧
    Responses.extract_instructions [⟨"system", .str "sys", none, none, none⟩] =
      some "sys" := by
  constructor
  · rw [messages_to_responses_input_spec.1]
    rw [messages_to_responses_input_spec.2.1 _ rfl]
    rw [show ([⟨"user", .str "hello", none, none, none⟩,
        ⟨"tool", .str "done", none, none, some "call-1"⟩] :
          List Responses.Message) =
        [⟨"user", .str "hello", none, none, none⟩] ++
          [⟨"tool", .str "done", none, none, some "call-1"⟩] from rfl,
      messages_to_responses_input_spec.1,
      messages_to_responses_input_spec.2.2.1 _ "hello" rfl rfl,
      messages_to_responses_input_spec.2.2.2.2.1 _ "done" rfl rfl]
    rfl
  · rw [messages_to_responses_input_spec.2.2.2.2.2]
    rfl

/-! ### Streaming adapter lemmas -/

namespace Stream

/-- Scanning from failure stays failed. -/
theorem scanList_none (es : List AnthEvent) : scanList none es = none := by
  induction es with
  | nil => rfl
  | cons e rest ih => simpa [scanList] using ih

/-- Scanning distributes over append. -/
theorem scanList_append (a b : List AnthEvent) :
    ∀ st, scanList st (a ++ b) = scanList (scanList st a) b := by
  induction a with
  | nil => intro st; rfl
  | cons e rest ih => intro st; simpa [scanList] using ih _

/-- Unfolds one successful scanning step. -/
theorem scanList_cons (st : ScanSt) (e : AnthEvent) (rest : List AnthEvent) :
    scanList (some st) (e :: rest) = scanList (scanStep st e) rest := rfl

/-- A stop event closes the matching open block. -/
theorem scanStep_stop (used : List Nat) (i : Nat) :
    scanStep ⟨some i, used⟩ (.content_block_stop i) = some ⟨none, used⟩ := by
  simp [scanStep, startIndex, deltaIndex, stopIndex]

/-- A text-block start on a fresh index opens it. -/
theorem scanStep_start_text (used : List Nat) (i : Nat) (h : i ∉ used) :
    scanStep ⟨none, used⟩ (.content_block_start_text i) =
      some ⟨some i, i :: used⟩ := by
  simp [scanStep, startIndex, h]

/-- A tool-block start on a fresh index opens it. -/
theorem scanStep_start_tool (used : List Nat) (i : Nat) (a b : String)
    (h : i ∉ used) :
    scanStep ⟨none, used⟩ (.content_block_start_tool i a b) =
      some ⟨some i, i :: used⟩ := by
  simp [scanStep, startIndex, h]

/-- A text delta on the open block passes. -/
theorem scanStep_delta_text (used : List Nat) (i : Nat) (t : String) :
    scanStep ⟨some i, used⟩ (.content_block_delta_text i t) =
      some ⟨some i, used⟩ := by
  simp [scanStep, startIndex, deltaIndex]

/-- A json delta on the open block passes. -/
theorem scanStep_delta_json (used : List Nat) (i : Nat) (t : String) :
    scanStep ⟨some i, used⟩ (.content_block_delta_json i t) =
      some ⟨some i, used⟩ := by
  simp [scanStep, startIndex, deltaIndex]

/-- message_start passes any scanner state. -/
theorem scanStep_mstart (st : ScanSt) (a b : String) (n : Nat) (k : Option Nat) :
    scanStep st (.message_start a b n k) = some st := rfl

/-- message_delta passes any scanner state. -/
theorem scanStep_mdelta (st : ScanSt) (r : String) (x y : Nat) (k : Option Nat) :
    scanStep st (.message_delta r x y k) = some st := rfl

/-- message_stop passes any scanner state. -/
theorem scanStep_mstop (st : ScanSt) : scanStep st .message_stop = some st := rfl


theorem is_tool_open_true (s : AnthropicStreamState)
    (h : is_tool_block_open s = true) : s.content_block_open = true := by
  unfold is_tool_block_open at h
  exact (Bool.and_eq_true _ _ |>.mp h).1

theorem is_tool_open_false_of_closed (s : AnthropicStreamState)
    (h : s.content_block_open = false) : is_tool_block_open s = false := by
  unfold is_tool_block_open
  simp [h]

theorem textPhase_eq_toolOpen (txt : String) (s : AnthropicStreamState)
    (h : is_tool_block_open s = true) :
    textPhase (some txt) s =
      ([.content_block_stop s.content_block_index,
        .content_block_start_text (s.content_block_index + 1),
        .content_block_delta_text (s.content_block_index + 1) txt],
       ⟨s.message_start_sent, s.content_block_index + 1, true, s.tool_calls⟩) := by
  simp [textPhase, h]

theorem textPhase_eq_textOpen (txt : String) (s : AnthropicStreamState)
    (ht : is_tool_block_open s = false) (ho : s.content_block_open = true) :
    textPhase (some txt) s =
      ([.content_block_delta_text s.content_block_index txt], s) := by
  simp [textPhase, ht, ho]

theorem textPhase_eq_closed (txt : String) (s : AnthropicStreamState)
    (ho : s.content_block_open = false) :
    textPhase (some txt) s =
      ([.content_block_start_text s.content_block_index,
        .content_block_delta_text s.content_block_index txt],
       ⟨s.message_start_sent, s.content_block_index, true, s.tool_calls⟩) := by
  simp [textPhase, is_tool_open_false_of_closed s ho, ho]


theorem toolStep_eq_openArgs (tc : ToolCallDelta) (s : AnthropicStreamState)
    (tid tname args : String) (hid : tc.id = some tid) (hname : tc.name = some tname)
    (hargs : tc.arguments = some args) (ho : s.content_block_open = true) :
    toolStep tc s =
      ([.content_block_stop s.content_block_index,
        .content_block_start_tool (s.content_block_index + 1) tid tname,
        .content_block_delta_json (s.content_block_index + 1) args],
       ⟨s.message_start_sent, s.content_block_index + 1, true,
         mapInsert (tc.index.getD 0) (s.content_block_index + 1) s.tool_calls⟩) := by
  simp [toolStep, hid, hname, hargs, ho, mapInsert, List.lookup]

theorem toolStep_eq_openNoArgs (tc : ToolCallDelta) (s : AnthropicStreamState)
    (tid tname : String) (hid : tc.id = some tid) (hname : tc.name = some tname)
    (hargs : tc.arguments = none) (ho : s.content_block_open = true) :
    toolStep tc s =
      ([.content_block_stop s.content_block_index,
        .content_block_start_tool (s.content_block_index + 1) tid tname],
       ⟨s.message_start_sent, s.content_block_index + 1, true,
         mapInsert (tc.index.getD 0) (s.content_block_index + 1) s.tool_calls⟩) := by
  simp [toolStep, hid, hname, hargs, ho]

theorem toolStep_eq_closedArgs (tc : ToolCallDelta) (s : AnthropicStreamState)
    (tid tname args : String) (hid : tc.id = some tid) (hname : tc.name = some tname)
    (hargs : tc.arguments = some args) (ho : s.content_block_open = false) :
    toolStep tc s =
      ([.content_block_start_tool s.content_block_index tid tname,
        .content_block_delta_json s.content_block_index args],
       ⟨s.message_start_sent, s.content_block_index, true,
         mapInsert (tc.index.getD 0) s.content_block_index s.tool_calls⟩) := by
  simp [toolStep, hid, hname, hargs, ho, mapInsert, List.lookup]

theorem toolStep_eq_closedNoArgs (tc : ToolCallDelta) (s : AnthropicStreamState)
    (tid tname : String) (hid : tc.id = some tid) (hname : tc.name = some tname)
    (hargs : tc.arguments = none) (ho : s.content_block_open = false) :
    toolStep tc s =
      ([.content_block_start_tool s.content_block_index tid tname],
       ⟨s.message_start_sent, s.content_block_index, true,
         mapInsert (tc.index.getD 0) s.content_block_index s.tool_calls⟩) := by
  simp [toolStep, hid, hname, hargs, ho]

theorem toolStep_eq_missing (tc : ToolCallDelta) (s : AnthropicStreamState)
    (hid : tc.id = none ∨ tc.name = none) (hargs : tc.arguments = none) :
    toolStep tc s = ([], s) := by
  rcases hid with h | h
  · cases hn : tc.name <;> simp [toolStep, h, hn, hargs]
  · cases hn : tc.id <;> simp [toolStep, h, hn, hargs]

theorem toolStep_eq_dropped (tc : ToolCallDelta) (s : AnthropicStreamState)
    (args : String) (hid : tc.id = none ∨ tc.name = none)
    (hargs : tc.arguments = some args)
    (hmap : s.tool_calls.lookup (tc.index.getD 0) = none) :
    toolStep tc s = ([], s) := by
  rcases hid with h | h
  · cases hn : tc.name <;> simp [toolStep, h, hn, hargs, hmap]
  · cases hn : tc.id <;> simp [toolStep, h, hn, hargs, hmap]

theorem toolStep_eq_late (tc : ToolCallDelta) (s : AnthropicStreamState)
    (args : String) (b : Nat) (hid : tc.id = none ∨ tc.name = none)
    (hargs : tc.arguments = some args)
    (hmap : s.tool_calls.lookup (tc.index.getD 0) = some b) :
    toolStep tc s = ([.content_block_delta_json b args], s) := by
  rcases hid with h | h
  · cases hn : tc.name <;> simp [toolStep, h, hn, hargs, hmap]
  · cases hn : tc.id <;> simp [toolStep, h, hn, hargs, hmap]


theorem not_mem_of_le (used : List Nat) (i : Nat)
    (h : ∀ j ∈ used, j ≤ i) : i + 1 ∉ used := by
  intro hmem
  have := h _ hmem
  omega

theorem not_mem_of_lt (used : List Nat) (i : Nat)
    (h : ∀ j ∈ used, j < i) : i ∉ used := by
  intro hmem
  have := h _ hmem
  omega

theorem textPhase_scanOK (ct : Option String) (s : AnthropicStreamState)
    (es : List AnthEvent) (h : ScanOK es s) :
    ScanOK (es ++ (textPhase ct s).1) (textPhase ct s).2 := by
  obtain ⟨used, hscan, hle, hlt, hmem⟩ := h
  cases ct with
  | none =>
    simp only [textPhase, List.append_nil]
    exact ⟨used, hscan, hle, hlt, hmem⟩
  | some txt =>
    obtain ⟨sent, idx, opn, tools⟩ := s
    cases opn with
    | false =>
      rw [textPhase_eq_closed txt _ rfl]
      have hscan2 : scanList (some ⟨none, []⟩) es = some ⟨none, used⟩ := hscan
      refine ⟨idx :: used, ?_, ?_, ?_, ?_⟩
      · rw [scanList_append, hscan2, scanList_cons,
          scanStep_start_text _ _ (not_mem_of_lt used idx (hlt rfl)),
          scanList_cons, scanStep_delta_text]
        rfl
      · intro j hj
        rcases List.mem_cons.mp hj with rfl | hj
        · exact le_refl _
        · exact hle _ hj
      · intro hfalse; simp at hfalse
      · intro _; exact List.mem_cons_self _ _
    | true =>
      by_cases hto : is_tool_block_open ⟨sent, idx, true, tools⟩ = true
      · rw [textPhase_eq_toolOpen txt _ hto]
        have hscan2 : scanList (some ⟨none, []⟩) es = some ⟨some idx, used⟩ := hscan
        refine ⟨(idx + 1) :: used, ?_, ?_, ?_, ?_⟩
        · rw [scanList_append, hscan2, scanList_cons, scanStep_stop, scanList_cons,
            scanStep_start_text _ _ (not_mem_of_le used idx hle),
            scanList_cons, scanStep_delta_text]
          rfl
        · intro j hj
          rcases List.mem_cons.mp hj with rfl | hj
          · exact le_refl _
          · exact le_trans (hle _ hj) (Nat.le_succ _)
        · intro hfalse; simp at hfalse
        · intro _; exact List.mem_cons_self _ _
      · have hto2 : is_tool_block_open ⟨sent, idx, true, tools⟩ = false :=
          Bool.eq_false_iff.mpr hto
        rw [textPhase_eq_textOpen txt _ hto2 rfl]
        have hscan2 : scanList (some ⟨none, []⟩) es = some ⟨some idx, used⟩ := hscan
        refine ⟨used, ?_, hle, ?_, ?_⟩
        · rw [scanList_append, hscan2, scanList_cons, scanStep_delta_text]
          rfl
        · intro hfalse; simp at hfalse
        · intro _; exact hmem rfl


theorem toolStepOK_late (tc : ToolCallDelta) (s : AnthropicStreamState)
    (args : String) (b : Nat) (hid : tc.id = none ∨ tc.name = none)
    (hargs : tc.arguments = some args)
    (hmap : s.tool_calls.lookup (tc.index.getD 0) = some b)
    (hok : toolStepOK tc s = true) :
    s.content_block_open = true ∧ b = s.content_block_index := by
  simp only [toolStepOK, hargs, hmap] at hok
  rcases hid with h | h <;>
    · simp only [h, Option.isSome_none, Option.isSome_some, Bool.false_and,
        Bool.and_false, Bool.false_eq_true, if_false, Bool.and_eq_true,
        beq_iff_eq] at hok
      exact hok

theorem toolStep_scanOK (tc : ToolCallDelta) (s : AnthropicStreamState)
    (es : List AnthEvent) (h : ScanOK es s) (hok : toolStepOK tc s = true) :
    ScanOK (es ++ (toolStep tc s).1) (toolStep tc s).2 := by
  by_cases hpresent : tc.id.isSome ∧ tc.name.isSome
  · obtain ⟨tid, hid⟩ := Option.isSome_iff_exists.mp hpresent.1
    obtain ⟨tname, hname⟩ := Option.isSome_iff_exists.mp hpresent.2
    obtain ⟨used, hscan, hle, hlt, hmem⟩ := h
    obtain ⟨sent, idx, opn, tools⟩ := s
    cases opn with
    | true =>
      cases hargs : tc.arguments with
      | some args =>
        rw [toolStep_eq_openArgs tc _ tid tname args hid hname hargs rfl]
        have hscan2 : scanList (some ⟨none, []⟩) es = some ⟨some idx, used⟩ := hscan
        refine ⟨(idx + 1) :: used, ?_, ?_, ?_, ?_⟩
        · rw [scanList_append, hscan2, scanList_cons, scanStep_stop, scanList_cons,
            scanStep_start_tool _ _ _ _ (not_mem_of_le used idx hle),
            scanList_cons, scanStep_delta_json]
          rfl
        · intro j hj
          rcases List.mem_cons.mp hj with rfl | hj
          · exact le_refl _
          · exact le_trans (hle _ hj) (Nat.le_succ _)
        · intro hfalse; simp at hfalse
        · intro _; exact List.mem_cons_self _ _
      | none =>
        rw [toolStep_eq_openNoArgs tc _ tid tname hid hname hargs rfl]
        have hscan2 : scanList (some ⟨none, []⟩) es = some ⟨some idx, used⟩ := hscan
        refine ⟨(idx + 1) :: used, ?_, ?_, ?_, ?_⟩
        · rw [scanList_append, hscan2, scanList_cons, scanStep_stop, scanList_cons,
            scanStep_start_tool _ _ _ _ (not_mem_of_le used idx hle)]
          rfl
        · intro j hj
          rcases List.mem_cons.mp hj with rfl | hj
          · exact le_refl _
          · exact le_trans (hle _ hj) (Nat.le_succ _)
        · intro hfalse; simp at hfalse
        · intro _; exact List.mem_cons_self _ _
    | false =>
      cases hargs : tc.arguments with
      | some args =>
        rw [toolStep_eq_closedArgs tc _ tid tname args hid hname hargs rfl]
        have hscan2 : scanList (some ⟨none, []⟩) es = some ⟨none, used⟩ := hscan
        refine ⟨idx :: used, ?_, ?_, ?_, ?_⟩
        · rw [scanList_append, hscan2, scanList_cons,
            scanStep_start_tool _ _ _ _ (not_mem_of_lt used idx (hlt rfl)),
            scanList_cons, scanStep_delta_json]
          rfl
        · intro j hj
          rcases List.mem_cons.mp hj with rfl | hj
          · exact le_refl _
          · exact hle _ hj
        · intro hfalse; simp at hfalse
        · intro _; exact List.mem_cons_self _ _
      | none =>
        rw [toolStep_eq_closedNoArgs tc _ tid tname hid hname hargs rfl]
        have hscan2 : scanList (some ⟨none, []⟩) es = some ⟨none, used⟩ := hscan
        refine ⟨idx :: used, ?_, ?_, ?_, ?_⟩
        · rw [scanList_append, hscan2, scanList_cons,
            scanStep_start_tool _ _ _ _ (not_mem_of_lt used idx (hlt rfl))]
          rfl
        · intro j hj
          rcases List.mem_cons.mp hj with rfl | hj
          · exact le_refl _
          · exact hle _ hj
        · intro hfalse; simp at hfalse
        · intro _; exact List.mem_cons_self _ _
  · have hid : tc.id = none ∨ tc.name = none := by
      rcases Decidable.not_and_iff_or_not.mp hpresent with hni | hni
      · exact Or.inl (Option.not_isSome_iff_eq_none.mp hni)
      · exact Or.inr (Option.not_isSome_iff_eq_none.mp hni)
    cases hargs : tc.arguments with
    | none =>
      rw [toolStep_eq_missing tc s hid hargs]
      simpa using h
    | some args =>
      cases hmap : s.tool_calls.lookup (tc.index.getD 0) with
      | none =>
        rw [toolStep_eq_dropped tc s args hid hargs hmap]
        simpa using h
      | some b =>
        obtain ⟨ho, hb⟩ := toolStepOK_late tc s args b hid hargs hmap hok
        rw [toolStep_eq_late tc s args b hid hargs hmap]
        obtain ⟨used, hscan, hle, hlt, hmem⟩ := h
        subst hb
        refine ⟨used, ?_, hle, hlt, hmem⟩
        have hopen : openOf s = some s.content_block_index := by simp [openOf, ho]
        rw [scanList_append, hscan, hopen, scanList_cons, scanStep_delta_json, ← hopen]
        rfl


theorem toolPhase_scanOK (tcs : List ToolCallDelta) :
    ∀ (s : AnthropicStreamState) (es : List AnthEvent),
      ScanOK es s → toolPhaseOK tcs s = true →
      ScanOK (es ++ (toolPhase tcs s).1) (toolPhase tcs s).2 := by
  induction tcs with
  | nil => intro s es h _; simpa [toolPhase] using h
  | cons tc rest ih =>
    intro s es h hok
    simp only [toolPhaseOK, Bool.and_eq_true] at hok
    have h2 := ih (toolStep tc s).2 _ (toolStep_scanOK tc s es h hok.1) hok.2
    simpa [toolPhase, List.append_assoc] using h2

theorem startPhase_eq_sent (c : Chunk) (s : AnthropicStreamState)
    (h : s.message_start_sent = true) : startPhase c s = ([], s) := by
  simp [startPhase, h]

theorem startPhase_eq_unsent (c : Chunk) (s : AnthropicStreamState)
    (h : s.message_start_sent = false) :
    startPhase c s =
      ([.message_start (c.id.getD "msg_unknown") (c.model.getD "unknown")
          (extract_usage c).1 (extract_usage c).2.2],
        { s with message_start_sent := true }) := by
  simp [startPhase, h]

theorem startPhase_scanOK (c : Chunk) (s : AnthropicStreamState)
    (es : List AnthEvent) (h : ScanOK es s) :
    ScanOK (es ++ (startPhase c s).1) (startPhase c s).2 := by
  obtain ⟨used, hscan, hle, hlt, hmem⟩ := h
  cases hs : s.message_start_sent with
  | true =>
    rw [startPhase_eq_sent c s hs]
    simp only [List.append_nil]
    exact ⟨used, hscan, hle, hlt, hmem⟩
  | false =>
    rw [startPhase_eq_unsent c s hs]
    refine ⟨used, ?_, hle, hlt, hmem⟩
    rw [scanList_append, hscan, scanList_cons, scanStep_mstart]
    rfl

theorem startPhase_sent_after (c : Chunk) (s : AnthropicStreamState) :
    (startPhase c s).2.message_start_sent = true := by
  cases hs : s.message_start_sent with
  | true => simp [startPhase_eq_sent c s hs, hs]
  | false => rw [startPhase_eq_unsent c s hs]

theorem textPhase_sent (ct : Option String) (s : AnthropicStreamState) :
    (textPhase ct s).2.message_start_sent = s.message_start_sent := by
  cases ct with
  | none => rfl
  | some txt =>
    obtain ⟨sent, idx, opn, tools⟩ := s
    cases opn with
    | false => rw [textPhase_eq_closed txt _ rfl]
    | true =>
      by_cases hto : is_tool_block_open ⟨sent, idx, true, tools⟩ = true
      · rw [textPhase_eq_toolOpen txt _ hto]
      · rw [textPhase_eq_textOpen txt _ (Bool.eq_false_iff.mpr hto) rfl]

theorem toolStep_sent (tc : ToolCallDelta) (s : AnthropicStreamState) :
    (toolStep tc s).2.message_start_sent = s.message_start_sent := by
  obtain ⟨tidx, tid, tname, targs⟩ := tc
  obtain ⟨sent, idx, opn, tools⟩ := s
  cases tid <;> cases tname <;> cases targs <;> cases opn <;>
    first
    | rfl
    | (simp [toolStep, mapInsert, List.lookup]; done)
    | ((cases hl : List.lookup (tidx.getD 0) tools <;>
          simp [toolStep, hl]); done)

theorem toolPhase_sent (tcs : List ToolCallDelta) :
    ∀ s : AnthropicStreamState,
      (toolPhase tcs s).2.message_start_sent = s.message_start_sent := by
  induction tcs with
  | nil => intro s; rfl
  | cons tc rest ih =>
    intro s
    simp only [toolPhase]
    rw [ih, toolStep_sent]

theorem finishPhase_eq_open (c : Chunk) (r : String) (s : AnthropicStreamState)
    (ho : s.content_block_open = true) :
    finishPhase c (some r) s =
      ([.content_block_stop s.content_block_index,
        .message_delta (Messages.map_openai_stop_reason r) (extract_usage c).1
          (extract_usage c).2.1 (extract_usage c).2.2,
        .message_stop],
        { s with content_block_open := false }) := by
  simp [finishPhase, ho]

theorem finishPhase_eq_closed (c : Chunk) (r : String) (s : AnthropicStreamState)
    (ho : s.content_block_open = false) :
    finishPhase c (some r) s =
      ([.message_delta (Messages.map_openai_stop_reason r) (extract_usage c).1
          (extract_usage c).2.1 (extract_usage c).2.2,
        .message_stop], s) := by
  simp [finishPhase, ho]


theorem noMsgEvents_append (a b : List AnthEvent) :
    noMsgEvents (a ++ b) = (noMsgEvents a && noMsgEvents b) := by
  simp [noMsgEvents, List.all_append]

theorem countP_of_noMsg (es : List AnthEvent) (h : noMsgEvents es = true) :
    es.countP isMessageStart = 0 ∧ es.countP isMessageDelta = 0 ∧
      es.countP isMessageStop = 0 := by
  unfold noMsgEvents at h
  rw [List.all_eq_true] at h
  refine ⟨List.countP_eq_zero.mpr ?_, List.countP_eq_zero.mpr ?_,
    List.countP_eq_zero.mpr ?_⟩ <;>
    · intro e he
      have h2 := h e he
      simp only [Bool.and_eq_true, Bool.not_eq_true'] at h2
      simp [h2.1.1, h2.1.2, h2.2]

theorem textPhase_noMsg (ct : Option String) (s : AnthropicStreamState) :
    noMsgEvents (textPhase ct s).1 = true := by
  cases ct with
  | none => rfl
  | some txt =>
    obtain ⟨sent, idx, opn, tools⟩ := s
    cases opn with
    | false =>
      rw [textPhase_eq_closed txt _ rfl]
      rfl
    | true =>
      by_cases hto : is_tool_block_open ⟨sent, idx, true, tools⟩ = true
      · rw [textPhase_eq_toolOpen txt _ hto]; rfl
      · rw [textPhase_eq_textOpen txt _ (Bool.eq_false_iff.mpr hto) rfl]; rfl

theorem toolStep_noMsg (tc : ToolCallDelta) (s : AnthropicStreamState) :
    noMsgEvents (toolStep tc s).1 = true := by
  obtain ⟨tidx, tid, tname, targs⟩ := tc
  obtain ⟨sent, idx, opn, tools⟩ := s
  cases tid <;> cases tname <;> cases targs <;> cases opn <;>
    first
    | rfl
    | (simp [toolStep, mapInsert, List.lookup, noMsgEvents, isMessageStart,
        isMessageDelta, isMessageStop]; done)
    | ((cases hl : List.lookup (tidx.getD 0) tools <;>
        simp [toolStep, hl, noMsgEvents, isMessageStart, isMessageDelta,
          isMessageStop]); done)

theorem toolPhase_noMsg (tcs : List ToolCallDelta) :
    ∀ s : AnthropicStreamState, noMsgEvents (toolPhase tcs s).1 = true := by
  induction tcs with
  | nil => intro s; rfl
  | cons tc rest ih =>
    intro s
    simp only [toolPhase, noMsgEvents_append, Bool.and_eq_true]
    exact ⟨toolStep_noMsg tc s, ih _⟩


theorem chunk_inv (c : Chunk) (es : List AnthEvent) (s : AnthropicStreamState)
    (inv : StreamInv es s) (hfin : chunkFinish c = none) (hok : chunkOK c s = true) :
    StreamInv (es ++ (translate_chunk_to_anthropic_events c s).1)
      (translate_chunk_to_anthropic_events c s).2 := by
  cases hch : c.choices.head? with
  | none =>
    simp only [translate_chunk_to_anthropic_events, hch, List.append_nil]
    exact inv
  | some choice =>
    have hfinr : choice.finish_reason = none := by
      unfold chunkFinish at hfin
      rw [hch] at hfin
      simpa using hfin
    have hok2 : toolPhaseOK (choice.tool_calls.getD [])
        (textPhase choice.content (startPhase c s).2).2 = true := by
      unfold chunkOK at hok
      rw [hch] at hok
      exact hok
    obtain ⟨invScan, invHead, invNil, invCountS, invCountD, invCountP⟩ := inv
    have sc1 := startPhase_scanOK c s es invScan
    have sc2 := textPhase_scanOK choice.content _ _ sc1
    have sc3 := toolPhase_scanOK (choice.tool_calls.getD []) _ _ sc2 hok2
    obtain ⟨c2s, c2d, c2p⟩ :=
      countP_of_noMsg _ (textPhase_noMsg choice.content (startPhase c s).2)
    obtain ⟨c3s, c3d, c3p⟩ :=
      countP_of_noMsg _ (toolPhase_noMsg (choice.tool_calls.getD [])
        (textPhase choice.content (startPhase c s).2).2)
    have hsent : (toolPhase (choice.tool_calls.getD [])
        (textPhase choice.content (startPhase c s).2).2).2.message_start_sent
        = true := by
      rw [toolPhase_sent, textPhase_sent, startPhase_sent_after]
    simp only [translate_chunk_to_anthropic_events, hch, hfinr, finishPhase,
      List.append_nil]
    refine ⟨?_, ?_, ?_, ?_, ?_, ?_⟩
    · simpa [List.append_assoc] using sc3
    · intro _
      cases hs : s.message_start_sent with
      | true =>
        obtain ⟨a, b, n, k, rest, hes⟩ := invHead hs
        exact ⟨a, b, n, k,
          rest ++ ((startPhase c s).1 ++
            ((textPhase choice.content (startPhase c s).2).1 ++
              (toolPhase (choice.tool_calls.getD [])
                (textPhase choice.content (startPhase c s).2).2).1)),
          by rw [hes]; simp⟩
      | false =>
        rw [invNil hs, startPhase_eq_unsent c s hs]
        simp only [List.nil_append, List.cons_append, List.singleton_append]
        exact ⟨_, _, _, _, _, rfl⟩
    · intro hfalse
      rw [hfalse] at hsent
      exact absurd hsent (by decide)
    · rw [hsent]
      simp only [List.countP_append, c2s, c3s]
      cases hs : s.message_start_sent with
      | true =>
        rw [startPhase_eq_sent c s hs]
        rw [hs] at invCountS
        simp [invCountS]
      | false =>
        rw [invNil hs, startPhase_eq_unsent c s hs]
        simp [isMessageStart]
    · simp only [List.countP_append, invCountD, c2d, c3d]
      cases hs : s.message_start_sent with
      | true => rw [startPhase_eq_sent c s hs]; rfl
      | false =>
        rw [startPhase_eq_unsent c s hs]
        simp [isMessageDelta]
    · simp only [List.countP_append, invCountP, c2p, c3p]
      cases hs : s.message_start_sent with
      | true => rw [startPhase_eq_sent c s hs]; rfl
      | false =>
        rw [startPhase_eq_unsent c s hs]
        simp [isMessageStop]


theorem final_chunk_session (c : Chunk) (es : List AnthEvent)
    (s : AnthropicStreamState) (inv : StreamInv es s) (r : String)
    (hfin : chunkFinish c = some r) (hok : chunkOK c s = true) :
    sessionOK (es ++ (translate_chunk_to_anthropic_events c s).1) = true := by
  cases hch : c.choices.head? with
  | none =>
    unfold chunkFinish at hfin
    rw [hch] at hfin
    simp at hfin
  | some choice =>
    have hfinr : choice.finish_reason = some r := by
      unfold chunkFinish at hfin
      rw [hch] at hfin
      simpa using hfin
    have hok2 : toolPhaseOK (choice.tool_calls.getD [])
        (textPhase choice.content (startPhase c s).2).2 = true := by
      unfold chunkOK at hok
      rw [hch] at hok
      exact hok
    obtain ⟨invScan, invHead, invNil, invCountS, invCountD, invCountP⟩ := inv
    have sc1 := startPhase_scanOK c s es invScan
    have sc2 := textPhase_scanOK choice.content _ _ sc1
    have sc3 := toolPhase_scanOK (choice.tool_calls.getD []) _ _ sc2 hok2
    obtain ⟨c2s, c2d, c2p⟩ :=
      countP_of_noMsg _ (textPhase_noMsg choice.content (startPhase c s).2)
    obtain ⟨c3s, c3d, c3p⟩ :=
      countP_of_noMsg _ (toolPhase_noMsg (choice.tool_calls.getD [])
        (textPhase choice.content (startPhase c s).2).2)
    simp only [translate_chunk_to_anthropic_events, hch, hfinr]
    obtain ⟨used, hscan3, hle3, hlt3, hmem3⟩ := sc3
    -- the pre-finish prefix and its head
    obtain ⟨ha, hb, hn, hk, restE, hPre⟩ :
        ∃ a b n k restE,
          es ++ (startPhase c s).1 ++
              (textPhase choice.content (startPhase c s).2).1 ++
              (toolPhase (choice.tool_calls.getD [])
                (textPhase choice.content (startPhase c s).2).2).1 =
            AnthEvent.message_start a b n k :: restE := by
      cases hs : s.message_start_sent with
      | true =>
        obtain ⟨a, b, n, k, rest, hes⟩ := invHead hs
        rw [hes]
        simp only [List.cons_append]
        exact ⟨a, b, n, k, _, rfl⟩
      | false =>
        rw [invNil hs, startPhase_eq_unsent c s hs]
        simp only [List.nil_append, List.cons_append, List.singleton_append]
        exact ⟨_, _, _, _, _, rfl⟩
    have hPreStart : (es ++ (startPhase c s).1 ++
        (textPhase choice.content (startPhase c s).2).1 ++
        (toolPhase (choice.tool_calls.getD [])
          (textPhase choice.content (startPhase c s).2).2).1).countP
          isMessageStart = 1 := by
      simp only [List.countP_append, c2s, c3s]
      cases hs : s.message_start_sent with
      | true =>
        rw [startPhase_eq_sent c s hs]
        rw [hs] at invCountS
        simp [invCountS]
      | false =>
        rw [invNil hs, startPhase_eq_unsent c s hs]
        simp [isMessageStart]
    have hPreD : (es ++ (startPhase c s).1 ++
        (textPhase choice.content (startPhase c s).2).1 ++
        (toolPhase (choice.tool_calls.getD [])
          (textPhase choice.content (startPhase c s).2).2).1).countP
          isMessageDelta = 0 := by
      simp only [List.countP_append, invCountD, c2d, c3d]
      cases hs : s.message_start_sent with
      | true => rw [startPhase_eq_sent c s hs]; rfl
      | false => rw [startPhase_eq_unsent c s hs]; simp [isMessageDelta]
    have hPreP : (es ++ (startPhase c s).1 ++
        (textPhase choice.content (startPhase c s).2).1 ++
        (toolPhase (choice.tool_calls.getD [])
          (textPhase choice.content (startPhase c s).2).2).1).countP
          isMessageStop = 0 := by
      simp only [List.countP_append, invCountP, c2p, c3p]
      cases hs : s.message_start_sent with
      | true => rw [startPhase_eq_sent c s hs]; rfl
      | false => rw [startPhase_eq_unsent c s hs]; simp [isMessageStop]
    -- normalize the event list into prefix ++ finish events
    have hE : es ++ ((startPhase c s).1 ++
        ((textPhase choice.content (startPhase c s).2).1 ++
          ((toolPhase (choice.tool_calls.getD [])
              (textPhase choice.content (startPhase c s).2).2).1 ++
            (finishPhase c (some r)
              (toolPhase (choice.tool_calls.getD [])
                (textPhase choice.content (startPhase c s).2).2).2).1))) =
        (es ++ (startPhase c s).1 ++
          (textPhase choice.content (startPhase c s).2).1 ++
          (toolPhase (choice.tool_calls.getD [])
            (textPhase choice.content (startPhase c s).2).2).1) ++
          (finishPhase c (some r)
            (toolPhase (choice.tool_calls.getD [])
              (textPhase choice.content (startPhase c s).2).2).2).1 := by
      simp [List.append_assoc]
    rw [show es ++ ((startPhase c s).1 ++
        (textPhase choice.content (startPhase c s).2).1 ++
        (toolPhase (choice.tool_calls.getD [])
          (textPhase choice.content (startPhase c s).2).2).1 ++
        (finishPhase c (some r)
          (toolPhase (choice.tool_calls.getD [])
            (textPhase choice.content (startPhase c s).2).2).2).1) =
      (es ++ (startPhase c s).1 ++
        (textPhase choice.content (startPhase c s).2).1 ++
        (toolPhase (choice.tool_calls.getD [])
          (textPhase choice.content (startPhase c s).2).2).1) ++
        (finishPhase c (some r)
          (toolPhase (choice.tool_calls.getD [])
            (textPhase choice.content (startPhase c s).2).2).2).1 from by
      simp [List.append_assoc]]
    -- case on whether a block is open at the finish
    cases hopn : (toolPhase (choice.tool_calls.getD [])
        (textPhase choice.content (startPhase c s).2).2).2.content_block_open with
    | true =>
      rw [finishPhase_eq_open c r _ hopn]
      simp only [sessionOK, Bool.and_eq_true]
      refine ⟨⟨⟨⟨⟨?_, ?_⟩, ?_⟩, ?_⟩, ?_⟩, ?_⟩
      · rw [hPre]
        simp [isMessageStart]
      · rw [List.countP_append, hPreStart]
        simp [isMessageStart]
      · have hopen3 : openOf (toolPhase (choice.tool_calls.getD [])
            (textPhase choice.content (startPhase c s).2).2).2 =
            some (toolPhase (choice.tool_calls.getD [])
              (textPhase choice.content (startPhase c s).2).2).2.content_block_index := by
          simp [openOf, hopn]
        rw [blocksOK.eq_def, scanList_append, hscan3, hopen3, scanList_cons,
          scanStep_stop, scanList_cons, scanStep_mdelta, scanList_cons,
          scanStep_mstop]
        rfl
      · rw [List.countP_append, hPreD]
        simp [isMessageDelta]
      · rw [List.countP_append, hPreP]
        simp [isMessageStop]
      · rw [endsWithDeltaStop.eq_def]
        simp [List.reverse_append, isMessageStop, isMessageDelta]
    | false =>
      rw [finishPhase_eq_closed c r _ hopn]
      simp only [sessionOK, Bool.and_eq_true]
      refine ⟨⟨⟨⟨⟨?_, ?_⟩, ?_⟩, ?_⟩, ?_⟩, ?_⟩
      · rw [hPre]
        simp [isMessageStart]
      · rw [List.countP_append, hPreStart]
        simp [isMessageStart]
      · have hopen3 : openOf (toolPhase (choice.tool_calls.getD [])
            (textPhase choice.content (startPhase c s).2).2).2 = none := by
          simp [openOf, hopn]
        rw [blocksOK.eq_def, scanList_append, hscan3, hopen3, scanList_cons,
          scanStep_mdelta, scanList_cons, scanStep_mstop]
        rfl
      · rw [List.countP_append, hPreD]
        simp [isMessageDelta]
      · rw [List.countP_append, hPreP]
        simp [isMessageStop]
      · rw [endsWithDeltaStop.eq_def]
        simp [List.reverse_append, isMessageStop, isMessageDelta]


theorem run_inv (chunks : List Chunk) :
    ∀ (es : List AnthEvent) (s : AnthropicStreamState), StreamInv es s →
      (∀ c ∈ chunks, chunkFinish c = none) → chunksOK chunks s = true →
      StreamInv (es ++ (runChunks chunks s).1) (runChunks chunks s).2 := by
  induction chunks with
  | nil =>
    intro es s inv _ _
    simpa [runChunks] using inv
  | cons c rest ih =>
    intro es s inv hfin hok
    simp only [chunksOK, Bool.and_eq_true] at hok
    have h1 := chunk_inv c es s inv (hfin c (List.mem_cons_self c rest)) hok.1
    have h2 := ih _ _ h1 (fun x hx => hfin x (List.mem_cons_of_mem _ hx)) hok.2
    simpa [runChunks, List.append_assoc] using h2

theorem runChunks_append (a b : List Chunk) :
    ∀ s, runChunks (a ++ b) s =
      ((runChunks a s).1 ++ (runChunks b (runChunks a s).2).1,
        (runChunks b (runChunks a s).2).2) := by
  induction a with
  | nil => intro s; simp [runChunks]
  | cons c rest ih =>
    intro s
    simp [runChunks, ih, List.append_assoc]


theorem chunksOK_append (a b : List Chunk) :
    ∀ s, chunksOK (a ++ b) s =
      (chunksOK a s && chunksOK b (runChunks a s).2) := by
  induction a with
  | nil => intro s; simp [chunksOK, runChunks]
  | cons c rest ih =>
    intro s
    simp [chunksOK, runChunks, ih, Bool.and_assoc]

theorem initial_inv : StreamInv [] initialState := by
  refine ⟨⟨[], rfl, by simp, by simp, ?_⟩, ?_, fun _ => rfl, rfl, rfl, rfl⟩
  · intro h
    exact absurd h (by decide)
  · intro h
    exact absurd h (by decide)


theorem startPhase_toolcalls (c : Chunk) (s : AnthropicStreamState) :
    (startPhase c s).2.tool_calls = s.tool_calls := by
  cases hs : s.message_start_sent with
  | false => rw [startPhase_eq_unsent c s hs]
  | true => rw [startPhase_eq_sent c s hs]

theorem stream_session_wf (chunks : List Chunk) (r : String)
    (hfin : chunks.getLast?.bind chunkFinish = some r)
    (hpre : ∀ c ∈ chunks.dropLast, chunkFinish c = none)
    (hargs : chunksOK chunks initialState = true) :
    sessionOK (runChunks chunks initialState).1 = true := by
  cases hlast : chunks.getLast? with
  | none => rw [hlast] at hfin; simp at hfin
  | some lastc =>
    rw [hlast] at hfin
    simp only [Option.some_bind] at hfin
    have hne : chunks ≠ [] := by
      intro h
      rw [h] at hlast
      simp at hlast
    have hdecomp : chunks.dropLast ++ [lastc] = chunks := by
      have h1 := List.dropLast_append_getLast hne
      have h2 : chunks.getLast hne = lastc := by
        have h3 := List.getLast?_eq_getLast chunks hne
        rw [hlast] at h3
        exact (Option.some_inj.mp h3).symm
      rw [h2] at h1
      exact h1
    rw [← hdecomp] at hargs ⊢
    rw [chunksOK_append] at hargs
    rw [runChunks_append]
    simp only [Bool.and_eq_true] at hargs
    have inv1 := run_inv chunks.dropLast [] initialState initial_inv hpre hargs.1
    rw [List.nil_append] at inv1
    have hok2 : chunkOK lastc (runChunks chunks.dropLast initialState).2 = true := by
      have h4 := hargs.2
      simp [chunksOK] at h4
      exact h4
    have hfinal := final_chunk_session lastc _ _ inv1 r hfin hok2
    simpa [runChunks] using hfinal


/-- C1 counterexample: a session of two chunks each carrying a finish_reason
satisfies the claim's premise (the final chunk carries a finish_reason) yet
emits two message_delta and two message_stop events, refuting the claim as
stated. -/
theorem anthropic_stream_counterexample :
    ((([⟨none, none, [⟨none, none, some "stop"⟩], ⟨none, none, none⟩⟩,
        ⟨none, none, [⟨none, none, some "stop"⟩], ⟨none, none, none⟩⟩] :
          List Chunk).getLast?.bind chunkFinish) = some "stop") ∧
    sessionOK (runChunks
        [⟨none, none, [⟨none, none, some "stop"⟩], ⟨none, none, none⟩⟩,
          ⟨none, none, [⟨none, none, some "stop"⟩], ⟨none, none, none⟩⟩]
        initialState).1 = false :=
  ⟨rfl, by decide⟩

/-- C1 (amended): for every finite chunk sequence fed in order from the
default state in which only the final chunk carries a finish_reason and every
tool-call argument fragment arrives while its block is the currently open one
(`chunksOK`), the emitted event sequence starts with exactly one
message_start, every content_block_start opens a fresh block that is closed
by exactly one content_block_stop before any new block opens, deltas target
only the open block, and the sequence concludes with exactly one
message_delta followed by exactly one message_stop. -/
theorem stream_session_wellformed (chunks : List Chunk) (r : String)
    (hfin : chunks.getLast?.bind chunkFinish = some r)
    (hpre : ∀ c ∈ chunks.dropLast, chunkFinish c = none)
    (hargs : chunksOK chunks initialState = true) :
    sessionOK (runChunks chunks initialState).1 = true :=
  stream_session_wf chunks r hfin hpre hargs

/-- Witness for the amended C1 theorem: a text chunk followed by a finishing
chunk. -/
theorem stream_session_wellformed_witness :
    sessionOK (runChunks
        [⟨some "id1", some "m", [⟨some "hi", none, none⟩], ⟨none, none, none⟩⟩,
          ⟨none, none, [⟨none, none, some "stop"⟩], ⟨none, none, none⟩⟩]
        initialState).1 = true :=
  stream_session_wellformed
    [⟨some "id1", some "m", [⟨some "hi", none, none⟩], ⟨none, none, none⟩⟩,
      ⟨none, none, [⟨none, none, some "stop"⟩], ⟨none, none, none⟩⟩]
    "stop" rfl (by decide) (by decide)

/-- C9: when no block mapping has been recorded for an upstream tool-call
index, a delta at that index lacking id or name but carrying an arguments
fragment emits nothing — no content_block_start and no input_json_delta —
and leaves the state unchanged; a chunk consisting only of such deltas emits
at most the message_start frame. -/
theorem tool_args_without_mapping_dropped :
    ∀ (s : AnthropicStreamState) (tc : ToolCallDelta) (args : String),
      (tc.id = none ∨ tc.name = none) →
      s.tool_calls.lookup (tc.index.getD 0) = none →
      tc.arguments = some args →
      toolStep tc s = ([], s) ∧
      (∀ (c : Chunk) (choice : ChunkChoice),
        c.choices = [choice] → choice.content = none →
        choice.finish_reason = none → choice.tool_calls = some [tc] →
        translate_chunk_to_anthropic_events c s =
          ((startPhase c s).1, (startPhase c s).2)) := by
  intro s tc args hid hmap hargs
  refine ⟨toolStep_eq_dropped tc s args hid hargs hmap, ?_⟩
  intro c choice hch hct hfinr htc
  have hhead : c.choices.head? = some choice := by rw [hch]; rfl
  have hmap1 : (startPhase c s).2.tool_calls.lookup (tc.index.getD 0) = none := by
    rw [startPhase_toolcalls]
    exact hmap
  simp only [translate_chunk_to_anthropic_events, hhead, hct, hfinr, htc,
    Option.getD_some, textPhase, toolPhase, finishPhase,
    toolStep_eq_dropped tc _ args hid hargs hmap1, List.append_nil]

/-- Witness for C9 at a concrete argument-only delta against the default
state. -/
theorem tool_args_without_mapping_dropped_witness :
    toolStep ⟨some 0, none, none, some "frag"⟩ initialState =
      ([], initialState) :=
  (tool_args_without_mapping_dropped initialState
    ⟨some 0, none, none, some "frag"⟩ "frag" (Or.inl rfl) rfl rfl).1

end Stream

/-- Witness for C10: absent tool, inequality operator. -/
theorem unresolved_field_evaluates_false_witness :
    Hooks.evalExpr ⟨none, none, none⟩ (.predE "tool" .opNe "\"X\"") = false ∧
    Hooks.evalExpr ⟨none, none, none⟩ (.fieldE "tool") =
      (Hooks.resolve_field ⟨none, none, none⟩ "tool").isSome ∧
    Hooks.resolve_field ⟨none, none, none⟩ "tool" = none ∧
    Hooks.jsonScalarString (.obj []) = none :=
  ⟨unresolved_field_evaluates_false.1 ⟨none, none, none⟩ "tool" .opNe "\"X\""
      (by decide) rfl,
    unresolved_field_evaluates_false.2.1 _ _,
    unresolved_field_evaluates_false.2.2.1 _ rfl,
    unresolved_field_evaluates_false.2.2.2 _ (Or.inl ⟨[], rfl⟩)⟩

end CopilotApi
